import Mathlib

/-!
# Observability gateway operator: the reconcile pass

A shallow embedding of `internal/controller/observabilitygateway_controller.go`
and `api/v1alpha1/observabilitygateway_types.go`.

* Go structs become Lean structures with the Go field names.  A Go
  `map[string]string` is an association list read with `List.lookup`; a Go
  `map[string]struct{}` used as a set is a list read with membership; a nil
  pointer is `none`; `int32` values are integers (the code does no arithmetic on
  them).
* The reconciler reaches the cluster only through `client.Client`.  That
  interface is the record `Client σ`, where `σ` is the state of the backing
  store: reads return a value or an error, writes return the new state or an
  error (a refused write leaves the state as it was).
* `Reconcile`, `reconcileDeployment`, `reconcileService` and
  `cleanupRemovedClasses` are written over an arbitrary `Client σ`, in
  state-passing style.  A pass returns its error (if any), the outcomes it
  logged, and the state it leaves behind, which after a failure is the
  partially applied state.
* What the backing store does with a request is not the controller's code.  The
  properties that depend on it are stated for every `Client` under explicit
  store conditions (`StoreConditions`): reads answer from the current content,
  a created or updated object is kept under its key, a deleted object is gone
  at once.  `memClient` is the plain in-memory map that meets them;
  `cachedListClient`, `finalizerClient` and `defaultingClient` are stores that
  break one condition each, the way an API server with a read cache,
  finalizers and defaulting does.
* `controllerutil.CreateOrUpdate` and `controllerutil.SetControllerReference`
  are library code the controller calls; they are embedded from their documented
  behaviour.
-/

set_option linter.dupNamespace false

namespace Gateway

/-! ## Kubernetes API types used by the controller -/

/-- Go `map[string]string`. -/
abbrev StrMap := List (String × String)

/-- Errors a pass can end with. -/
inductive Err where
  | notFound
  | alreadyExists
  | conflict
  | alreadyOwned
  | crossNamespaceOwner
  | clusterScopedOwned
  | mutatedKey
  | other (msg : String)
deriving DecidableEq, Repr

/-- Mirror of `errors.IsNotFound`. -/
def IsNotFound : Err → Bool
  | .notFound => true
  | _ => false

/-- Mirror of `types.NamespacedName`. -/
structure NamespacedName where
  Namespace : String
  Name : String
deriving DecidableEq, Repr

/-- Mirror of `metav1.OwnerReference`; `APIVersion` is kept as its group and version. -/
structure OwnerReference where
  Group : String
  Version : String
  Kind : String
  Name : String
  UID : String
  Controller : Option Bool
  BlockOwnerDeletion : Option Bool
deriving DecidableEq, Repr

/-- Mirror of `metav1.ObjectMeta` (the fields a child object carries). -/
structure ObjectMeta where
  Name : String := ""
  Namespace : String := ""
  UID : String := ""
  ResourceVersion : String := ""
  Labels : StrMap := []
  Annotations : StrMap := []
  OwnerReferences : List OwnerReference := []
  Finalizers : List String := []
deriving DecidableEq, Repr

/-- Mirror of `corev1.ContainerPort`. -/
structure ContainerPort where
  Name : String := ""
  HostPort : Int := 0
  ContainerPort : Int := 0
  Protocol : String := ""
  HostIP : String := ""
deriving DecidableEq, Repr

/-- Mirror of `corev1.ResourceRequirements`. -/
structure ResourceRequirements where
  Limits : StrMap := []
  Requests : StrMap := []
deriving DecidableEq, Repr

/-- Mirror of `corev1.Toleration`. -/
structure Toleration where
  Key : String := ""
  Operator : String := ""
  Value : String := ""
  Effect : String := ""
  TolerationSeconds : Option Int := none
deriving DecidableEq, Repr

/-- Mirror of `corev1.Affinity`; each of the three rule sets is kept as an uninterpreted term. -/
structure Affinity where
  NodeAffinity : Option String := none
  PodAffinity : Option String := none
  PodAntiAffinity : Option String := none
deriving DecidableEq, Repr

/-- Mirror of `corev1.VolumeMount`. -/
structure VolumeMount where
  Name : String := ""
  ReadOnly : Bool := false
  MountPath : String := ""
  SubPath : String := ""
deriving DecidableEq, Repr

/-- Mirror of `corev1.ConfigMapVolumeSource`; `LocalObjectReference` is its `Name`. -/
structure ConfigMapVolumeSource where
  Name : String := ""
  DefaultMode : Option Int := none
  Optional : Option Bool := none
deriving DecidableEq, Repr

/-- Mirror of `corev1.VolumeSource` (the alternatives the controller can meet). -/
structure VolumeSource where
  ConfigMap : Option ConfigMapVolumeSource := none
  Secret : Option String := none
  EmptyDir : Option String := none
deriving DecidableEq, Repr

/-- Mirror of `corev1.Volume`. -/
structure Volume where
  Name : String := ""
  VolumeSource : VolumeSource := {}
deriving DecidableEq, Repr

/-- Mirror of `corev1.Container`. -/
structure Container where
  Name : String := ""
  Image : String := ""
  Command : List String := []
  Args : List String := []
  Ports : List ContainerPort := []
  Env : StrMap := []
  Resources : ResourceRequirements := {}
  VolumeMounts : List VolumeMount := []
  ImagePullPolicy : String := ""
deriving DecidableEq, Repr

/-- Mirror of `corev1.PodSpec`. -/
structure PodSpec where
  Volumes : List Volume := []
  InitContainers : List Container := []
  Containers : List Container := []
  RestartPolicy : String := ""
  NodeSelector : StrMap := []
  ServiceAccountName : String := ""
  Affinity : Option Affinity := none
  Tolerations : List Toleration := []
deriving DecidableEq, Repr

/-- Mirror of `corev1.PodTemplateSpec`. -/
structure PodTemplateSpec where
  ObjectMeta : ObjectMeta := {}
  Spec : PodSpec := {}
deriving DecidableEq, Repr

/-- Mirror of `metav1.LabelSelectorRequirement`. -/
structure LabelSelectorRequirement where
  Key : String := ""
  Operator : String := ""
  Values : List String := []
deriving DecidableEq, Repr

/-- Mirror of `metav1.LabelSelector`. -/
structure LabelSelector where
  MatchLabels : StrMap := []
  MatchExpressions : List LabelSelectorRequirement := []
deriving DecidableEq, Repr

/-- Mirror of `appsv1.DeploymentSpec`; the strategy is kept as an uninterpreted term. -/
structure DeploymentSpec where
  Replicas : Option Int := none
  Selector : Option LabelSelector := none
  Template : PodTemplateSpec := {}
  Strategy : String := ""
  MinReadySeconds : Int := 0
  RevisionHistoryLimit : Option Int := none
  Paused : Bool := false
  ProgressDeadlineSeconds : Option Int := none
deriving DecidableEq, Repr

/-- Mirror of `appsv1.DeploymentStatus` (counters only). -/
structure DeploymentStatus where
  ObservedGeneration : Int := 0
  Replicas : Int := 0
  ReadyReplicas : Int := 0
deriving DecidableEq, Repr

/-- Mirror of `appsv1.Deployment`. -/
structure Deployment where
  ObjectMeta : ObjectMeta := {}
  Spec : DeploymentSpec := {}
  Status : DeploymentStatus := {}
deriving DecidableEq, Repr

/-- Mirror of `intstr.IntOrString`. -/
inductive IntOrString where
  | int (v : Int)
  | str (s : String)
deriving DecidableEq, Repr

/-- Mirror of `intstr.FromInt`.  The source passes `int(p.ContainerPort)`, an `int32` widened
to `int`; `FromInt` narrows it back to `int32`, which is the identity on such a value. -/
def FromInt (v : Int) : IntOrString := .int v

/-- Mirror of `corev1.ServicePort`. -/
structure ServicePort where
  Name : String := ""
  Protocol : String := ""
  AppProtocol : Option String := none
  Port : Int := 0
  TargetPort : IntOrString := .int 0
  NodePort : Int := 0
deriving DecidableEq, Repr

/-- Mirror of `corev1.ServiceSpec`; its Go field `Type` is `ServiceType` here. -/
structure ServiceSpec where
  Ports : List ServicePort := []
  Selector : StrMap := []
  ClusterIP : String := ""
  ServiceType : String := ""
  SessionAffinity : String := ""
deriving DecidableEq, Repr

/-- Mirror of `corev1.ServiceStatus`; the load-balancer status is kept as an uninterpreted term. -/
structure ServiceStatus where
  LoadBalancer : String := ""
deriving DecidableEq, Repr

/-- Mirror of `corev1.Service`. -/
structure Service where
  ObjectMeta : ObjectMeta := {}
  Spec : ServiceSpec := {}
  Status : ServiceStatus := {}
deriving DecidableEq, Repr

/-- Value of `corev1.ProtocolTCP`. -/
def ProtocolTCP : String := "TCP"

/-- Value of `corev1.ServiceTypeClusterIP`. -/
def ServiceTypeClusterIP : String := "ClusterIP"

/-! ## `api/v1alpha1/observabilitygateway_types.go` -/

/-- Mirror of `GatewayClass`. -/
structure GatewayClass where
  Name : String := ""
  Replicas : Int := 0
  Resources : Option ResourceRequirements := none
  NodeSelector : StrMap := []
  Tolerations : List Toleration := []
  Affinity : Option Affinity := none
  ExtraArgs : List String := []
  Ports : List ContainerPort := []
  PodAnnotations : StrMap := []
deriving DecidableEq, Repr

/-- Mirror of `ObservabilityGatewaySpec`. -/
structure ObservabilityGatewaySpec where
  Image : String := ""
  ConfigConfigMap : String := ""
  ExtraArgs : List String := []
  Classes : List GatewayClass := []
deriving DecidableEq, Repr

/-- Mirror of `ObservabilityGateway` (the status is never read or written by the pass). -/
structure ObservabilityGateway where
  ObjectMeta : ObjectMeta := {}
  Spec : ObservabilityGatewaySpec := {}
deriving DecidableEq, Repr

/-! ## The store interface -/

/-- Mirror of `controllerutil.OperationResult`; `unchanged` is `OperationResultNone`. -/
inductive OperationResult where
  | unchanged
  | created
  | updated
deriving DecidableEq, Repr

/-- Mirror of the part of `client.Client` the reconciler calls, one entry per object kind.
`List` takes the `InNamespace` namespace and the `MatchingLabels` map. -/
structure Client (σ : Type) where
  GetGateway : σ → NamespacedName → Except Err ObservabilityGateway
  GetDeployment : σ → NamespacedName → Except Err Deployment
  CreateDeployment : σ → Deployment → Except Err σ
  UpdateDeployment : σ → Deployment → Except Err σ
  DeleteDeployment : σ → Deployment → Except Err σ
  ListDeployments : σ → String → StrMap → Except Err (List Deployment)
  GetService : σ → NamespacedName → Except Err Service
  CreateService : σ → Service → Except Err σ
  UpdateService : σ → Service → Except Err σ
  DeleteService : σ → Service → Except Err σ
  ListServices : σ → String → StrMap → Except Err (List Service)

/-- Mirror of `client.ObjectKeyFromObject`. -/
def ObjectKeyFromObject (m : ObjectMeta) : NamespacedName :=
  { Namespace := m.Namespace, Name := m.Name }

/-- Mirror of `controllerutil.CreateOrUpdate` for one object kind: fetch the object under the
key of `obj`; when it is absent run the mutate function on `obj` and create the result; when
it is present run the mutate function on the fetched object, and update only if the result
differs from what was fetched (`equality.Semantic.DeepEqual`, here equality of the embedded
values).  The mutate function may not change the key.  The outcome `unchanged` is
`OperationResultNone`. -/
def CreateOrUpdate {σ α : Type} [DecidableEq α]
    (get : σ → NamespacedName → Except Err α) (create update : σ → α → Except Err σ)
    (metaOf : α → ObjectMeta) (s : σ) (obj : α) (f : α → Except Err α) :
    Except Err OperationResult × σ :=
  let key := ObjectKeyFromObject (metaOf obj)
  match get s key with
  | .error err =>
    if IsNotFound err then
      match f obj with
      | .error e => (.error e, s)
      | .ok obj1 =>
        if ObjectKeyFromObject (metaOf obj1) ≠ key then (.error .mutatedKey, s)
        else
          match create s obj1 with
          | .error e => (.error e, s)
          | .ok s1 => (.ok .created, s1)
    else (.error err, s)
  | .ok existing =>
    match f existing with
    | .error e => (.error e, s)
    | .ok obj1 =>
      if ObjectKeyFromObject (metaOf obj1) ≠ key then (.error .mutatedKey, s)
      else if existing = obj1 then (.ok .unchanged, s)
      else
        match update s obj1 with
        | .error e => (.error e, s)
        | .ok s1 => (.ok .updated, s1)

/-! ## Owner references (`controllerutil.SetControllerReference`) -/

/-- Mirror of `referSameObject`: same group, kind and name. -/
def referSameObject (a b : OwnerReference) : Bool :=
  a.Group == b.Group && a.Kind == b.Kind && a.Name == b.Name

/-- Mirror of `metav1.GetControllerOf`: the first reference flagged as controller. -/
def GetControllerOf (m : ObjectMeta) : Option OwnerReference :=
  m.OwnerReferences.find? (fun r => r.Controller == some true)

/-- Mirror of `upsertOwnerRef`: replace the first reference to the same object, or append. -/
def upsertOwnerRef (ref : OwnerReference) : List OwnerReference → List OwnerReference
  | [] => [ref]
  | r :: rs => if referSameObject r ref then ref :: rs else r :: upsertOwnerRef ref rs

/-- Mirror of `validateOwner`. -/
def validateOwner (owner object : ObjectMeta) : Except Err Unit :=
  if owner.Namespace ≠ "" then
    if object.Namespace = "" then .error .clusterScopedOwned
    else if owner.Namespace ≠ object.Namespace then .error .crossNamespaceOwner
    else .ok ()
  else .ok ()

/-- The controller reference `SetControllerReference` builds for a gateway; group, version and
kind are the ones the gateway type is registered under. -/
def controllerRef (gw : ObservabilityGateway) : OwnerReference :=
  { Group := "observability.x-k8s.io", Version := "v1alpha1", Kind := "ObservabilityGateway",
    Name := gw.ObjectMeta.Name, UID := gw.ObjectMeta.UID,
    Controller := some true, BlockOwnerDeletion := some true }

/-- Mirror of `controllerutil.SetControllerReference(gw, obj, scheme)` on the metadata of the
controlled object. -/
def SetControllerReference (gw : ObservabilityGateway) (m : ObjectMeta) : Except Err ObjectMeta :=
  match validateOwner gw.ObjectMeta m with
  | .error e => .error e
  | .ok _ =>
    let ref := controllerRef gw
    match GetControllerOf m with
    | some existing =>
      if referSameObject existing ref then
        .ok { m with OwnerReferences := upsertOwnerRef ref m.OwnerReferences }
      else .error .alreadyOwned
    | none => .ok { m with OwnerReferences := upsertOwnerRef ref m.OwnerReferences }

/-! ## `internal/controller/observabilitygateway_controller.go` -/

/-- Mirror of `fmt.Sprintf("%s-%s", gw.Name, class.Name)`. -/
def childName (gwName className : String) : String := gwName ++ "-" ++ className

/-- Label key `app.kubernetes.io/part-of`. -/
def partOfLabel : String := "app.kubernetes.io/part-of"

/-- Label key `observability-class`. -/
def classLabel : String := "observability-class"

/-- The label map both mutate functions assign. -/
def childLabels (gw : ObservabilityGateway) (cls : GatewayClass) : StrMap :=
  [(partOfLabel, gw.ObjectMeta.Name), (classLabel, cls.Name)]

/-- The three ports used when a class declares none. -/
def defaultPorts : List ContainerPort :=
  [ { Name := "otlp-grpc", ContainerPort := 4317, Protocol := ProtocolTCP },
    { Name := "otlp-http", ContainerPort := 4318, Protocol := ProtocolTCP },
    { Name := "metrics", ContainerPort := 8888, Protocol := ProtocolTCP } ]

/-- The `appsv1.DeploymentSpec` the mutate closure of `reconcileDeployment` assigns to
`dep.Spec`; `depName` is `dep.Name`. -/
def deploymentSpecOf (gw : ObservabilityGateway) (cls : GatewayClass) (depName : String) :
    DeploymentSpec :=
  -- Default ports if none specified
  let ports := if cls.Ports.length = 0 then defaultPorts else cls.Ports
  -- Resources: safe copy
  let resources : ResourceRequirements :=
    match cls.Resources with
    | some r => r
    | none => {}
  -- Affinity: safe
  let affinity : Option Affinity :=
    match cls.Affinity with
    | some a => some a
    | none => none
  { Replicas := some cls.Replicas
    Selector := some { MatchLabels := [("app", depName)] }
    Template :=
      { ObjectMeta := { Labels := [("app", depName)] }
        Spec :=
          { Containers :=
              [ { Name := "otel-collector"
                  Image := gw.Spec.Image
                  Args := (["--config=/etc/otel/config.yaml"] ++ gw.Spec.ExtraArgs)
                    ++ cls.ExtraArgs
                  Ports := ports
                  VolumeMounts := [ { Name := "otel-config", MountPath := "/etc/otel" } ]
                  Resources := resources } ]
            Volumes :=
              [ { Name := "otel-config"
                  VolumeSource := { ConfigMap := some { Name := gw.Spec.ConfigConfigMap } } } ]
            NodeSelector := cls.NodeSelector
            Tolerations := cls.Tolerations
            Affinity := affinity } } }

/-- The mutate closure of `reconcileDeployment`, applied to the object `dep` that
`CreateOrUpdate` hands it: assign the labels, assign the spec, set the controller reference. -/
def deploymentMutateFn (gw : ObservabilityGateway) (cls : GatewayClass) (dep : Deployment) :
    Except Err Deployment :=
  let labels := childLabels gw cls
  let spec := deploymentSpecOf gw cls dep.ObjectMeta.Name
  match SetControllerReference gw { dep.ObjectMeta with Labels := labels } with
  | .error e => .error e
  | .ok m => .ok { dep with ObjectMeta := m, Spec := spec }

/-- The Service port the loop of `reconcileService` writes for a container port. -/
def servicePortOf (p : ContainerPort) : ServicePort :=
  { Name := p.Name
    Port := p.ContainerPort
    Protocol := p.Protocol
    TargetPort := FromInt p.ContainerPort }

/-- The `corev1.ServiceSpec` the mutate closure of `reconcileService` assigns to `svc.Spec`;
`svcName` is `svc.Name`. -/
def serviceSpecOf (cls : GatewayClass) (svcName : String) : ServiceSpec :=
  -- Default ports if none specified
  let containerPorts := if cls.Ports.length = 0 then defaultPorts else cls.Ports
  let servicePorts : List ServicePort := containerPorts.map servicePortOf
  { Selector := [("app", svcName)]
    Ports := servicePorts
    ServiceType := ServiceTypeClusterIP }

/-- The mutate closure of `reconcileService`, applied to the object `svc` that
`CreateOrUpdate` hands it: assign the labels, assign the spec, set the controller reference. -/
def serviceMutateFn (gw : ObservabilityGateway) (cls : GatewayClass) (svc : Service) :
    Except Err Service :=
  let labels := childLabels gw cls
  let spec := serviceSpecOf cls svc.ObjectMeta.Name
  match SetControllerReference gw { svc.ObjectMeta with Labels := labels } with
  | .error e => .error e
  | .ok m => .ok { svc with ObjectMeta := m, Spec := spec }

/-- Mirror of `reconcileDeployment`: the outcome is the `op` the function logs. -/
def reconcileDeployment {σ : Type} (r : Client σ) (gw : ObservabilityGateway)
    (cls : GatewayClass) (s : σ) : Except Err OperationResult × σ :=
  let dep : Deployment :=
    { ObjectMeta :=
        { Name := childName gw.ObjectMeta.Name cls.Name, Namespace := gw.ObjectMeta.Namespace } }
  CreateOrUpdate r.GetDeployment r.CreateDeployment r.UpdateDeployment Deployment.ObjectMeta
    s dep (deploymentMutateFn gw cls)

/-- Mirror of `reconcileService`: the outcome is the `op` the function logs. -/
def reconcileService {σ : Type} (r : Client σ) (gw : ObservabilityGateway)
    (cls : GatewayClass) (s : σ) : Except Err OperationResult × σ :=
  let svc : Service :=
    { ObjectMeta :=
        { Name := childName gw.ObjectMeta.Name cls.Name, Namespace := gw.ObjectMeta.Namespace } }
  CreateOrUpdate r.GetService r.CreateService r.UpdateService Service.ObjectMeta
    s svc (serviceMutateFn gw cls)

/-- The value of `obj.Labels["observability-class"]`: the empty string when the key is absent. -/
def classNameOf (m : ObjectMeta) : String :=
  match m.Labels.lookup classLabel with
  | some v => v
  | none => ""

/-- One `for _, obj := range list.Items` loop of `cleanupRemovedClasses`: delete every listed
object whose class is not current, stop at the first delete error. -/
def deleteRemoved {σ α : Type} (delete : σ → α → Except Err σ) (metaOf : α → ObjectMeta)
    (currentClasses : List String) : List α → σ → Option Err × σ
  | [], s => (none, s)
  | obj :: rest, s =>
    let className := classNameOf (metaOf obj)
    if className ∉ currentClasses then
      match delete s obj with
      | .error err => (some err, s)
      | .ok s1 => deleteRemoved delete metaOf currentClasses rest s1
    else deleteRemoved delete metaOf currentClasses rest s

/-- Mirror of `cleanupRemovedClasses`. -/
def cleanupRemovedClasses {σ : Type} (r : Client σ) (gw : ObservabilityGateway)
    (currentClasses : List String) (s : σ) : Option Err × σ :=
  -- List all owned Deployments
  match r.ListDeployments s gw.ObjectMeta.Namespace [(partOfLabel, gw.ObjectMeta.Name)] with
  | .error err => (some err, s)
  | .ok deployList =>
    match deleteRemoved r.DeleteDeployment Deployment.ObjectMeta currentClasses deployList s with
    | (some err, s1) => (some err, s1)
    | (none, s1) =>
      -- List all owned Services
      match r.ListServices s1 gw.ObjectMeta.Namespace [(partOfLabel, gw.ObjectMeta.Name)] with
      | .error err => (some err, s1)
      | .ok svcList =>
        deleteRemoved r.DeleteService Service.ObjectMeta currentClasses svcList s1

/-- One line of the pass log: `"Deployment reconciled"` or `"Service reconciled"` with the
operation and the child name. -/
structure LogEntry where
  msg : String
  op : OperationResult
  name : String
deriving DecidableEq, Repr

/-- What a pass leaves: the returned error (`none` for `nil`), the operations logged, and the
state of the store. -/
structure Outcome (σ : Type) where
  err : Option Err
  log : List LogEntry
  store : σ

/-- The `for _, class := range gw.Spec.Classes` loop of `Reconcile`: record the class name,
reconcile its Deployment, then its Service; stop at the first error. -/
def reconcileClasses {σ : Type} (r : Client σ) (gw : ObservabilityGateway) :
    List GatewayClass → List String → List LogEntry → σ → Option Err × List String × List LogEntry × σ
  | [], classNames, log, s => (none, classNames, log, s)
  | cls :: rest, classNames, log, s =>
    let classNames := cls.Name :: classNames
    match reconcileDeployment r gw cls s with
    | (.error err, s1) => (some err, classNames, log, s1)
    | (.ok op, s1) =>
      let log := log ++ [{ msg := "Deployment reconciled", op := op,
                           name := childName gw.ObjectMeta.Name cls.Name }]
      match reconcileService r gw cls s1 with
      | (.error err, s2) => (some err, classNames, log, s2)
      | (.ok op2, s2) =>
        let log := log ++ [{ msg := "Service reconciled", op := op2,
                             name := childName gw.ObjectMeta.Name cls.Name }]
        reconcileClasses r gw rest classNames log s2

/-- Mirror of `Reconcile`. -/
def Reconcile {σ : Type} (r : Client σ) (req : NamespacedName) (s : σ) : Outcome σ :=
  match r.GetGateway s req with
  | .error err =>
    if IsNotFound err then { err := none, log := [], store := s }
    else { err := some err, log := [], store := s }
  | .ok gw =>
    -- Track current classes for deletion
    match reconcileClasses r gw gw.Spec.Classes [] [] s with
    | (some err, _, log, s1) => { err := some err, log := log, store := s1 }
    | (none, classNames, log, s1) =>
      -- Delete removed classes
      match cleanupRemovedClasses r gw classNames s1 with
      | (some err, s2) => { err := some err, log := log, store := s2 }
      | (none, s2) => { err := none, log := log, store := s2 }

/-! ## Stores -/

/-- The content of a store: the objects of each kind. -/
structure Store where
  gateways : List ObservabilityGateway := []
  deployments : List Deployment := []
  services : List Service := []
deriving DecidableEq, Repr

/-- Whether `labels` carries every pair of the selector `sel` (`client.MatchingLabels`). -/
def matchesLabels (sel labels : StrMap) : Bool :=
  sel.all fun kv => labels.lookup kv.1 == some kv.2

/-- The stored object under a key. -/
def memGet {α : Type} (metaOf : α → ObjectMeta) (l : List α) (key : NamespacedName) :
    Except Err α :=
  match l.find? (fun x => ObjectKeyFromObject (metaOf x) = key) with
  | some x => .ok x
  | none => .error .notFound

/-- Store a new object; refused when its key is taken. -/
def memCreate {α : Type} (metaOf : α → ObjectMeta) (l : List α) (obj : α) :
    Except Err (List α) :=
  if l.any (fun x => ObjectKeyFromObject (metaOf x) = ObjectKeyFromObject (metaOf obj)) then
    .error .alreadyExists
  else .ok (l ++ [obj])

/-- Replace the object stored under the key of `obj`; refused when there is none. -/
def memUpdate {α : Type} (metaOf : α → ObjectMeta) (l : List α) (obj : α) :
    Except Err (List α) :=
  if l.any (fun x => ObjectKeyFromObject (metaOf x) = ObjectKeyFromObject (metaOf obj)) then
    .ok (l.map fun x =>
      if ObjectKeyFromObject (metaOf x) = ObjectKeyFromObject (metaOf obj) then obj else x)
  else .error .notFound

/-- Remove the object stored under the key of `obj` at once; refused when there is none. -/
def memDelete {α : Type} (metaOf : α → ObjectMeta) (l : List α) (obj : α) :
    Except Err (List α) :=
  if l.any (fun x => ObjectKeyFromObject (metaOf x) = ObjectKeyFromObject (metaOf obj)) then
    .ok (l.filter fun x =>
      ObjectKeyFromObject (metaOf x) ≠ ObjectKeyFromObject (metaOf obj))
  else .error .notFound

/-- The stored objects of a namespace that match a label selector, in stored order. -/
def memList {α : Type} (metaOf : α → ObjectMeta) (l : List α) (ns : String) (sel : StrMap) :
    List α :=
  l.filter fun x => (metaOf x).Namespace = ns && matchesLabels sel (metaOf x).Labels

/-- Put a new deployment list into the content. -/
def Store.withDeployments (s : Store) (l : List Deployment) : Store :=
  { s with deployments := l }

/-- Put a new service list into the content. -/
def Store.withServices (s : Store) (l : List Service) : Store :=
  { s with services := l }

/-- A map store as a `Client`: reads answer from the current content, a delete removes the
object at once, and a created or updated Deployment `d` (Service `v`) is kept as `nd s d`
(`nv s v`), where `nd` and `nv` stand for what the store does to an object on its way in
(filling defaults, stamping a version) in the state `s`. -/
def memClientWith (nd : Store → Deployment → Deployment) (nv : Store → Service → Service) :
    Client Store where
  GetGateway s key := memGet ObservabilityGateway.ObjectMeta s.gateways key
  GetDeployment s key := memGet Deployment.ObjectMeta s.deployments key
  CreateDeployment s d :=
    (memCreate Deployment.ObjectMeta s.deployments (nd s d)).map s.withDeployments
  UpdateDeployment s d :=
    (memUpdate Deployment.ObjectMeta s.deployments (nd s d)).map s.withDeployments
  DeleteDeployment s d := (memDelete Deployment.ObjectMeta s.deployments d).map s.withDeployments
  ListDeployments s ns sel := .ok (memList Deployment.ObjectMeta s.deployments ns sel)
  GetService s key := memGet Service.ObjectMeta s.services key
  CreateService s v := (memCreate Service.ObjectMeta s.services (nv s v)).map s.withServices
  UpdateService s v := (memUpdate Service.ObjectMeta s.services (nv s v)).map s.withServices
  DeleteService s v := (memDelete Service.ObjectMeta s.services v).map s.withServices
  ListServices s ns sel := .ok (memList Service.ObjectMeta s.services ns sel)

/-- The plain map store: every object is kept exactly as handed in.  An API server is not this
store: it fills defaults and stamps a resource version on write, keeps an object that carries
finalizers after accepting its delete, and a cached client may list an older content. -/
def memClient : Client Store := memClientWith (fun _ d => d) (fun _ v => v)

/-- Keys are unique among the stored deployments and among the stored services. -/
def Store.WF (s : Store) : Prop :=
  (s.deployments.map fun d => ObjectKeyFromObject d.ObjectMeta).Nodup ∧
  (s.services.map fun v => ObjectKeyFromObject v.ObjectMeta).Nodup

instance (s : Store) : Decidable s.WF := by
  unfold Store.WF; exact inferInstance

/-- A client that answers `List` from a cached snapshot of the store and sends every other
request to the store itself. -/
def cachedListClient (cache : Store) : Client Store :=
  { memClient with
    ListDeployments := fun _ ns sel => .ok (memList Deployment.ObjectMeta cache.deployments ns sel)
    ListServices := fun _ ns sel => .ok (memList Service.ObjectMeta cache.services ns sel) }

/-- Whether the object stored under the key of `obj` carries a finalizer. -/
def heldByFinalizer {α : Type} (metaOf : α → ObjectMeta) (l : List α) (obj : α) : Bool :=
  l.any fun x =>
    ObjectKeyFromObject (metaOf x) = ObjectKeyFromObject (metaOf obj) &&
      !(metaOf x).Finalizers.isEmpty

/-- A map store that honours finalizers: the delete of a stored object that carries a
finalizer is accepted and the object stays stored (an API server also marks it as being
deleted; the controller never reads that mark). -/
def finalizerClient : Client Store :=
  { memClient with
    DeleteDeployment := fun s d =>
      if heldByFinalizer Deployment.ObjectMeta s.deployments d then .ok s
      else (memDelete Deployment.ObjectMeta s.deployments d).map s.withDeployments
    DeleteService := fun s v =>
      if heldByFinalizer Service.ObjectMeta s.services v then .ok s
      else (memDelete Service.ObjectMeta s.services v).map s.withServices }

/-- The defaults an API server fills into a Deployment spec that leaves them open: the rolling
update strategy, a revision history limit of 10 and a progress deadline of 600 seconds. -/
def withDefaults (d : Deployment) : Deployment :=
  { d with
    Spec := { d.Spec with
      Strategy := if d.Spec.Strategy = "" then "RollingUpdate" else d.Spec.Strategy
      RevisionHistoryLimit := some (d.Spec.RevisionHistoryLimit.getD 10)
      ProgressDeadlineSeconds := some (d.Spec.ProgressDeadlineSeconds.getD 600) } }

/-- A map store that fills the Deployment defaults on every create and update. -/
def defaultingClient : Client Store := memClientWith (fun _ d => withDefaults d) (fun _ v => v)

/-- The store conditions.  `view s` is the content of the store in the state `s`; `nd` and
`nv` are what the store does to a Deployment and a Service on their way in.

* reads are current: `Get` answers the object stored under the key, NotFound when there is
  none, and `List` answers the stored objects of the namespace that carry the labels, in any
  order;
* `Create` refuses a taken key and otherwise adds the object, `Update` refuses a free key and
  otherwise replaces the object stored under the key, and nothing else changes;
* `Delete` refuses a free key and otherwise removes the object stored under the key at once,
  and nothing else changes. -/
structure StoreConditions {σ : Type} (r : Client σ) (view : σ → Store)
    (nd : Store → Deployment → Deployment) (nv : Store → Service → Service) : Prop where
  getGateway : ∀ s key,
    r.GetGateway s key = memGet ObservabilityGateway.ObjectMeta (view s).gateways key
  getDeployment : ∀ s key,
    r.GetDeployment s key = memGet Deployment.ObjectMeta (view s).deployments key
  getService : ∀ s key,
    r.GetService s key = memGet Service.ObjectMeta (view s).services key
  listDeployments : ∀ s ns sel, ∃ l, r.ListDeployments s ns sel = .ok l ∧
    l.Perm (memList Deployment.ObjectMeta (view s).deployments ns sel)
  listServices : ∀ s ns sel, ∃ l, r.ListServices s ns sel = .ok l ∧
    l.Perm (memList Service.ObjectMeta (view s).services ns sel)
  createDeployment : ∀ s d, (r.CreateDeployment s d).map view =
    (memCreate Deployment.ObjectMeta (view s).deployments (nd (view s) d)).map
      (view s).withDeployments
  updateDeployment : ∀ s d, (r.UpdateDeployment s d).map view =
    (memUpdate Deployment.ObjectMeta (view s).deployments (nd (view s) d)).map
      (view s).withDeployments
  deleteDeployment : ∀ s d, (r.DeleteDeployment s d).map view =
    (memDelete Deployment.ObjectMeta (view s).deployments d).map (view s).withDeployments
  createService : ∀ s v, (r.CreateService s v).map view =
    (memCreate Service.ObjectMeta (view s).services (nv (view s) v)).map (view s).withServices
  updateService : ∀ s v, (r.UpdateService s v).map view =
    (memUpdate Service.ObjectMeta (view s).services (nv (view s) v)).map (view s).withServices
  deleteService : ∀ s v, (r.DeleteService s v).map view =
    (memDelete Service.ObjectMeta (view s).services v).map (view s).withServices

/-- The key of a stored object. -/
def keyOf {α : Type} (metaOf : α → ObjectMeta) (x : α) : NamespacedName :=
  ObjectKeyFromObject (metaOf x)

/-- A store that keeps the name, the namespace and the labels of what it is handed. -/
def KeepsMeta {α : Type} (metaOf : α → ObjectMeta) (n : α → α) : Prop :=
  ∀ x, keyOf metaOf (n x) = keyOf metaOf x ∧ (metaOf (n x)).Labels = (metaOf x).Labels

/-- A store that keeps, of a Deployment it is handed, everything the controller assigns or
reads: the spec, the name, the namespace, the labels and the owner references.  It may set
other metadata (a resource version, a UID) and the status. -/
def KeepsDeploymentFields (n : Deployment → Deployment) : Prop :=
  ∀ d, (n d).Spec = d.Spec ∧ (n d).ObjectMeta.Name = d.ObjectMeta.Name ∧
    (n d).ObjectMeta.Namespace = d.ObjectMeta.Namespace ∧
    (n d).ObjectMeta.Labels = d.ObjectMeta.Labels ∧
    (n d).ObjectMeta.OwnerReferences = d.ObjectMeta.OwnerReferences

/-- A store that keeps, of a Service it is handed, everything the controller assigns or reads:
the spec, the name, the namespace, the labels and the owner references. -/
def KeepsServiceFields (n : Service → Service) : Prop :=
  ∀ v, (n v).Spec = v.Spec ∧ (n v).ObjectMeta.Name = v.ObjectMeta.Name ∧
    (n v).ObjectMeta.Namespace = v.ObjectMeta.Namespace ∧
    (n v).ObjectMeta.Labels = v.ObjectMeta.Labels ∧
    (n v).ObjectMeta.OwnerReferences = v.ObjectMeta.OwnerReferences

/-- The metadata a store stamps on an object at a write: a UID when there is none yet, and a
new resource version. -/
def stampMeta (m : ObjectMeta) : ObjectMeta :=
  { m with
    UID := if m.UID = "" then "uid-" ++ m.Name else m.UID
    ResourceVersion := m.ResourceVersion ++ "1" }

/-- A map store that stamps a UID and a new resource version on every created or updated
object and keeps the rest as handed in. -/
def stampingClient : Client Store :=
  memClientWith (fun _ d => { d with ObjectMeta := stampMeta d.ObjectMeta })
    (fun _ v => { v with ObjectMeta := stampMeta v.ObjectMeta })

/-! ## Vocabulary of the properties -/

/-- An object of namespace `ns` labelled as part of the parent `gwName`: what
`cleanupRemovedClasses` lists. -/
def isChildOf (ns gwName : String) (m : ObjectMeta) : Bool :=
  m.Namespace = ns && matchesLabels [(partOfLabel, gwName)] m.Labels

/-- A child of the parent whose class is not among `currentClasses`. -/
def isRemoved (ns gwName : String) (currentClasses : List String) (m : ObjectMeta) : Bool :=
  isChildOf ns gwName m && decide (classNameOf m ∉ currentClasses)

/-- The content once the removed children of both kinds are gone: the deployments and
services that are not removed children stay, in order. -/
def pruned (gw : ObservabilityGateway) (currentClasses : List String) (s : Store) : Store :=
  { s with
    deployments := s.deployments.filter fun d =>
      !isRemoved gw.ObjectMeta.Namespace gw.ObjectMeta.Name currentClasses d.ObjectMeta
    services := s.services.filter fun v =>
      !isRemoved gw.ObjectMeta.Namespace gw.ObjectMeta.Name currentClasses v.ObjectMeta }

/-- An edit of the parent: the class list of the gateway stored under `req` becomes `classes`. -/
def editClasses (s : Store) (req : NamespacedName) (classes : List GatewayClass) : Store :=
  { s with gateways := s.gateways.map fun g =>
      if ObjectKeyFromObject g.ObjectMeta = req then
        { g with Spec := { g.Spec with Classes := classes } }
      else g }

/-- A sequence of class-list edits, each followed by one reconcile pass through the client
`r`; `edit classes` is the state change that stores the new class list, and a pass that fails
leaves the store as far as it got. -/
def runEdits {σ : Type} (r : Client σ) (edit : List GatewayClass → σ → σ)
    (req : NamespacedName) : List (List GatewayClass) → σ → σ
  | [], s => s
  | classes :: rest, s => runEdits r edit req rest (Reconcile r req (edit classes s)).store

/-- The two log lines of a class whose Deployment and Service were both left unchanged. -/
def unchangedLog (gw : ObservabilityGateway) (cls : GatewayClass) : List LogEntry :=
  [ { msg := "Deployment reconciled", op := .unchanged,
      name := childName gw.ObjectMeta.Name cls.Name },
    { msg := "Service reconciled", op := .unchanged,
      name := childName gw.ObjectMeta.Name cls.Name } ]

/-- What the proofs use of a mutate function: it keeps name and namespace, assigns the label
map `labels`, and applied to its own result returns that result. -/
structure GoodMutate {α : Type} (metaOf : α → ObjectMeta) (f : α → Except Err α)
    (labels : StrMap) : Prop where
  key : ∀ x y, f x = .ok y → keyOf metaOf y = keyOf metaOf x
  labels : ∀ x y, f x = .ok y → (metaOf y).Labels = labels
  idem : ∀ x y, f x = .ok y → f y = .ok y

/-- The effect of a successful `CreateOrUpdate` on the stored objects of the kind, in a store
that keeps a written object `x` as `n x`. -/
inductive StepL {α : Type} (metaOf : α → ObjectMeta) (key : NamespacedName)
    (f : α → Except Err α) (n : α → α) (l : List α) : OperationResult → List α → Prop
  | created (x0 x1 : α) : (∀ y ∈ l, keyOf metaOf y ≠ key) → f x0 = .ok x1 →
      keyOf metaOf x1 = key → StepL metaOf key f n l .created (l ++ [n x1])
  | unchanged (ex : α) : ex ∈ l → keyOf metaOf ex = key → f ex = .ok ex →
      StepL metaOf key f n l .unchanged l
  | updated (ex x1 : α) : ex ∈ l → keyOf metaOf ex = key → f ex = .ok x1 →
      keyOf metaOf x1 = key →
      StepL metaOf key f n l .updated (l.map fun y => if keyOf metaOf y = key then n x1 else y)

/-- Some stored object has the key `key` and the label map `labels`. -/
def Labelled {α : Type} (metaOf : α → ObjectMeta) (key : NamespacedName) (labels : StrMap)
    (l : List α) : Prop :=
  ∃ d ∈ l, keyOf metaOf d = key ∧ (metaOf d).Labels = labels

/-- Some stored object has the key `key` and is left as it is by the mutate function `f`. -/
def Synced {α : Type} (metaOf : α → ObjectMeta) (key : NamespacedName)
    (f : α → Except Err α) (l : List α) : Prop :=
  ∃ d ∈ l, keyOf metaOf d = key ∧ f d = .ok d

/-- The key under which the children of a class are stored. -/
def childKey (gw : ObservabilityGateway) (cls : GatewayClass) : NamespacedName :=
  { Namespace := gw.ObjectMeta.Namespace, Name := childName gw.ObjectMeta.Name cls.Name }

/-- The effect of a successful `reconcileDeployment` on the content of the store. -/
def DepStep (gw : ObservabilityGateway) (cls : GatewayClass) (n : Deployment → Deployment)
    (s : Store) (op : OperationResult) (s1 : Store) : Prop :=
  StepL Deployment.ObjectMeta (childKey gw cls) (deploymentMutateFn gw cls) n s.deployments op
      s1.deployments ∧
    s1.services = s.services ∧ s1.gateways = s.gateways

/-- The effect of a successful `reconcileService` on the content of the store. -/
def SvcStep (gw : ObservabilityGateway) (cls : GatewayClass) (n : Service → Service)
    (s : Store) (op : OperationResult) (s1 : Store) : Prop :=
  StepL Service.ObjectMeta (childKey gw cls) (serviceMutateFn gw cls) n s.services op
      s1.services ∧
    s1.deployments = s.deployments ∧ s1.gateways = s.gateways

/-- Every stored child of the parent is named after the parent and its own class label. -/
def NamedByClass {α : Type} (metaOf : α → ObjectMeta) (ns gwName : String) (l : List α) : Prop :=
  ∀ x ∈ l, isChildOf ns gwName (metaOf x) = true →
    (metaOf x).Name = childName gwName (classNameOf (metaOf x))

/-- The invariant of the content under passes for one parent: unique keys, and every child of
the parent named after the parent and its class label. -/
def PassInv (ns gwName : String) (s : Store) : Prop :=
  s.WF ∧ NamedByClass Deployment.ObjectMeta ns gwName s.deployments ∧
    NamedByClass Service.ObjectMeta ns gwName s.services

/-- Both children of a class are stored under the class key with the labels of the class. -/
def BothLabelled (gw : ObservabilityGateway) (c : GatewayClass) (s : Store) : Prop :=
  Labelled Deployment.ObjectMeta (childKey gw c) (childLabels gw c) s.deployments ∧
    Labelled Service.ObjectMeta (childKey gw c) (childLabels gw c) s.services

/-- Both children of a class are stored under the class key and left alone by the mutate
functions of the class. -/
def BothSynced (gw : ObservabilityGateway) (c : GatewayClass) (s : Store) : Prop :=
  Synced Deployment.ObjectMeta (childKey gw c) (deploymentMutateFn gw c) s.deployments ∧
    Synced Service.ObjectMeta (childKey gw c) (serviceMutateFn gw c) s.services

/-- The names of the stored Deployments of namespace `ns` labelled as part of `gwName`. -/
def deploymentNames (s : Store) (ns gwName : String) : List String :=
  (memList Deployment.ObjectMeta s.deployments ns [(partOfLabel, gwName)]).map
    fun d => d.ObjectMeta.Name

/-- The names of the stored Services of namespace `ns` labelled as part of `gwName`. -/
def serviceNames (s : Store) (ns gwName : String) : List String :=
  (memList Service.ObjectMeta s.services ns [(partOfLabel, gwName)]).map
    fun v => v.ObjectMeta.Name

/-! ## Examples -/

/-- The parent of the examples, without classes. -/
def exampleGateway : ObservabilityGateway :=
  { ObjectMeta := { Name := "gw", Namespace := "ns", UID := "uid-1" }
    Spec := { Image := "otel:1", ConfigConfigMap := "otel-cm", ExtraArgs := ["--x"] } }

/-- Class `a` of the examples. -/
def classA : GatewayClass := { Name := "a", Replicas := 1, ExtraArgs := ["--y"] }

/-- Class `b` of the examples. -/
def classB : GatewayClass := { Name := "b", Replicas := 2 }

/-- Class `c` of the examples. -/
def classC : GatewayClass := { Name := "c", Replicas := 3 }

/-- The key of the example parent. -/
def exampleReq : NamespacedName := { Namespace := "ns", Name := "gw" }

/-- A store that holds the example parent and no child. -/
def exampleStore : Store := { gateways := [exampleGateway] }

/-- The example parent with the class list `[a, b]`. -/
def gatewayAB : ObservabilityGateway :=
  { exampleGateway with Spec := { exampleGateway.Spec with Classes := [classA, classB] } }

/-- A store that holds `gatewayAB` and no child. -/
def storeAB : Store := { gateways := [gatewayAB] }

/-- The edit of the example parent on a plain content. -/
def exampleEdit (classes : List GatewayClass) (s : Store) : Store :=
  editClasses s exampleReq classes

/-- A Deployment `gw-a` that does not belong to the parent and carries a finalizer. -/
def foreignDeployment : Deployment :=
  { ObjectMeta := { Name := "gw-a", Namespace := "ns", UID := "uid-9",
                    Finalizers := ["example.com/hold"] } }

/-- A store that holds the example parent and `foreignDeployment`: no child of the parent. -/
def storeWithForeign : Store :=
  { gateways := [exampleGateway], deployments := [foreignDeployment] }

/-- A Deployment of the parent for a class `old` that is no longer declared, carrying a
finalizer. -/
def heldOrphan : Deployment :=
  { ObjectMeta := { Name := "gw-old", Namespace := "ns", UID := "uid-8",
                    Labels := [("app.kubernetes.io/part-of", "gw"), ("observability-class", "old")],
                    Finalizers := ["example.com/hold"] } }

/-- A store that holds the example parent and `heldOrphan`. -/
def storeWithHeldOrphan : Store :=
  { gateways := [exampleGateway], deployments := [heldOrphan] }

/-- A stored Deployment `gw-a` that carries a label and spec fields the controller never
sets. -/
def handEditedDeployment : Deployment :=
  { ObjectMeta :=
      { Name := "gw-a", Namespace := "ns", UID := "uid-7", ResourceVersion := "41"
        Labels := [("team", "telemetry"), ("app.kubernetes.io/part-of", "gw"),
                   ("observability-class", "a")]
        Annotations := [("deployment.kubernetes.io/revision", "3")] }
    Spec := { Replicas := some 1, Strategy := "Recreate", MinReadySeconds := 10,
              RevisionHistoryLimit := some 5, Paused := true }
    Status := { ObservedGeneration := 3, Replicas := 1, ReadyReplicas := 1 } }

/-- The live store of the stale-list example: the parent with the class list `[b]` and the two
children of `b`; the children of `a` are already gone. -/
def liveStoreB : Store :=
  (Reconcile memClient exampleReq
    (editClasses (Reconcile memClient exampleReq storeAB).store exampleReq [classB])).store

/-- The cached snapshot of the stale-list example: the store when `a` and `b` were both
synced. -/
def cachedStoreAB : Store := (Reconcile memClient exampleReq storeAB).store

/-- The cached snapshot of the second stale-list example: the store when `a`, `b` and `c` were
all synced. -/
def cachedStoreABC : Store :=
  (Reconcile memClient exampleReq (editClasses storeAB exampleReq [classA, classB, classC])).store

/-- The live store of the second stale-list example: the parent with the class list `[b]`,
the children of `a` and `b` still stored, those of `c` already gone. -/
def liveStoreAB : Store :=
  editClasses (Reconcile memClient exampleReq storeAB).store exampleReq [classB]

/-- The removed objects of a list are deleted in turn, each delete succeeds, and the state
goes from the first to the second; objects of a current class are passed over. -/
inductive DeletedInTurn {σ α : Type} (delete : σ → α → Except Err σ) (metaOf : α → ObjectMeta)
    (currentClasses : List String) : List α → σ → σ → Prop
  | done (s : σ) : DeletedInTurn delete metaOf currentClasses [] s s
  | pass (obj : α) (rest : List α) (s t : σ) :
      classNameOf (metaOf obj) ∈ currentClasses →
      DeletedInTurn delete metaOf currentClasses rest s t →
      DeletedInTurn delete metaOf currentClasses (obj :: rest) s t
  | delete (obj : α) (rest : List α) (s s1 t : σ) :
      classNameOf (metaOf obj) ∉ currentClasses → delete s obj = .ok s1 →
      DeletedInTurn delete metaOf currentClasses rest s1 t →
      DeletedInTurn delete metaOf currentClasses (obj :: rest) s t

/-- The Deployment the controller stores for a class of the example parent. -/
def exampleDeployment (cls : GatewayClass) : Deployment :=
  { ObjectMeta :=
      { Name := childName "gw" cls.Name, Namespace := "ns"
        Labels := childLabels exampleGateway cls
        OwnerReferences := [controllerRef exampleGateway] }
    Spec := deploymentSpecOf exampleGateway cls (childName "gw" cls.Name) }

/-! ## Basic facts -/

theorem childName_inj_right {p a b : String} (h : childName p a = childName p b) : a = b := by
  unfold childName at h
  have h1 := congrArg String.data h
  simp only [String.data_append, List.append_assoc] at h1
  have h2 := List.append_cancel_left h1
  have h3 := List.append_cancel_left h2
  exact String.ext h3

theorem classLabel_ne_partOfLabel : (classLabel == partOfLabel) = false := by decide

theorem classNameOf_childLabels (gw : ObservabilityGateway) (cls : GatewayClass)
    (m : ObjectMeta) (h : m.Labels = childLabels gw cls) : classNameOf m = cls.Name := by
  unfold classNameOf
  rw [h]
  simp [childLabels, List.lookup, classLabel_ne_partOfLabel]

theorem isChildOf_iff (ns gwName : String) (m : ObjectMeta) :
    isChildOf ns gwName m = true ↔
      m.Namespace = ns ∧ m.Labels.lookup partOfLabel = some gwName := by
  simp [isChildOf, matchesLabels]

theorem isChildOf_childLabels (gw : ObservabilityGateway) (cls : GatewayClass)
    (m : ObjectMeta) (h : m.Labels = childLabels gw cls)
    (hns : m.Namespace = gw.ObjectMeta.Namespace) :
    isChildOf gw.ObjectMeta.Namespace gw.ObjectMeta.Name m = true := by
  rw [isChildOf_iff, h]
  exact ⟨hns, by simp [childLabels, List.lookup]⟩

theorem mem_memList {α : Type} (metaOf : α → ObjectMeta) (l : List α) (ns gwName : String)
    (x : α) :
    x ∈ memList metaOf l ns [(partOfLabel, gwName)] ↔
      x ∈ l ∧ isChildOf ns gwName (metaOf x) = true := by
  simp [memList, isChildOf]

/-! ## Owner references -/

theorem referSameObject_self (r : OwnerReference) : referSameObject r r = true := by
  simp [referSameObject]

theorem upsertOwnerRef_idem (ref : OwnerReference) (l : List OwnerReference) :
    upsertOwnerRef ref (upsertOwnerRef ref l) = upsertOwnerRef ref l := by
  induction l with
  | nil => simp [upsertOwnerRef, referSameObject_self]
  | cons r rs ih =>
    by_cases h : referSameObject r ref = true
    · simp [upsertOwnerRef, h, referSameObject_self]
    · simp [upsertOwnerRef, h, ih]

theorem controller_of_upsert (ref : OwnerReference) (hc : ref.Controller = some true)
    (l : List OwnerReference)
    (h : ∀ ex, l.find? (fun r => r.Controller == some true) = some ex →
      referSameObject ex ref = true) :
    ∃ e, (upsertOwnerRef ref l).find? (fun r => r.Controller == some true) = some e ∧
      referSameObject e ref = true := by
  induction l with
  | nil => exact ⟨ref, by simp [upsertOwnerRef, hc], referSameObject_self ref⟩
  | cons r rs ih =>
    by_cases hs : referSameObject r ref = true
    · exact ⟨ref, by simp [upsertOwnerRef, hs, hc], referSameObject_self ref⟩
    · by_cases hr : r.Controller = some true
      · exact absurd (h r (by simp [List.find?, hr])) hs
      · have hb : (r.Controller == some true) = false := by simpa using hr
        have ih1 := ih (fun ex hex => h ex (by rw [List.find?_cons, hb]; exact hex))
        obtain ⟨e, he, hse⟩ := ih1
        refine ⟨e, ?_, hse⟩
        simp only [upsertOwnerRef, hs, Bool.false_eq_true, if_false]
        rw [List.find?_cons, hb]; exact he

theorem mem_upsertOwnerRef_of_mem (ref r : OwnerReference) (l : List OwnerReference)
    (hr : r ∈ l) (hne : referSameObject r ref = false) : r ∈ upsertOwnerRef ref l := by
  induction l with
  | nil => cases hr
  | cons a rs ih =>
    by_cases hs : referSameObject a ref = true
    · rcases List.mem_cons.1 hr with h | h
      · subst h; rw [hs] at hne; cases hne
      · simp [upsertOwnerRef, hs, h]
    · rcases List.mem_cons.1 hr with h | h
      · subst h; simp [upsertOwnerRef, hs]
      · simp [upsertOwnerRef, hs, ih h]

theorem SetControllerReference_ok {gw : ObservabilityGateway} {m m1 : ObjectMeta}
    (h : SetControllerReference gw m = .ok m1) :
    m1 = { m with OwnerReferences := upsertOwnerRef (controllerRef gw) m.OwnerReferences } ∧
      validateOwner gw.ObjectMeta m = .ok () ∧
      ∀ ex, GetControllerOf m = some ex → referSameObject ex (controllerRef gw) = true := by
  unfold SetControllerReference at h
  cases hv : validateOwner gw.ObjectMeta m with
  | error e => rw [hv] at h; cases h
  | ok u =>
    rw [hv] at h
    cases hg : GetControllerOf m with
    | none =>
      rw [hg] at h
      simp only [Except.ok.injEq] at h
      exact ⟨h.symm, rfl, fun ex hex => by cases hex⟩
    | some ex =>
      rw [hg] at h
      by_cases hs : referSameObject ex (controllerRef gw) = true
      · simp only [hs, if_true, Except.ok.injEq] at h
        exact ⟨h.symm, rfl, fun ex1 hex => by cases hex; exact hs⟩
      · simp [hs] at h

theorem SetControllerReference_idem {gw : ObservabilityGateway} {m m1 : ObjectMeta}
    (h : SetControllerReference gw m = .ok m1) : SetControllerReference gw m1 = .ok m1 := by
  obtain ⟨hm, hv, hc⟩ := SetControllerReference_ok h
  have hv1 : validateOwner gw.ObjectMeta m1 = .ok () := by
    rw [hm]; exact hv
  obtain ⟨e, he, hse⟩ := controller_of_upsert (controllerRef gw) rfl m.OwnerReferences
    (fun ex hex => hc ex hex)
  have hg : GetControllerOf m1 = some e := by
    rw [hm]; exact he
  unfold SetControllerReference
  rw [hv1, hg]
  simp only [hse, if_true]
  rw [hm]
  simp [upsertOwnerRef_idem]

/-! ## The mutate functions -/

theorem deploymentMutateFn_ok {gw : ObservabilityGateway} {cls : GatewayClass}
    {d d1 : Deployment} (h : deploymentMutateFn gw cls d = .ok d1) :
    d1 = { d with
      ObjectMeta := { d.ObjectMeta with
        Labels := childLabels gw cls
        OwnerReferences := upsertOwnerRef (controllerRef gw) d.ObjectMeta.OwnerReferences }
      Spec := deploymentSpecOf gw cls d.ObjectMeta.Name } := by
  unfold deploymentMutateFn at h
  cases hs : SetControllerReference gw { d.ObjectMeta with Labels := childLabels gw cls } with
  | error e => simp [hs] at h
  | ok m =>
    simp only [hs, Except.ok.injEq] at h
    rw [← h, (SetControllerReference_ok hs).1]

theorem serviceMutateFn_ok {gw : ObservabilityGateway} {cls : GatewayClass}
    {d d1 : Service} (h : serviceMutateFn gw cls d = .ok d1) :
    d1 = { d with
      ObjectMeta := { d.ObjectMeta with
        Labels := childLabels gw cls
        OwnerReferences := upsertOwnerRef (controllerRef gw) d.ObjectMeta.OwnerReferences }
      Spec := serviceSpecOf cls d.ObjectMeta.Name } := by
  unfold serviceMutateFn at h
  cases hs : SetControllerReference gw { d.ObjectMeta with Labels := childLabels gw cls } with
  | error e => simp [hs] at h
  | ok m =>
    simp only [hs, Except.ok.injEq] at h
    rw [← h, (SetControllerReference_ok hs).1]

theorem deploymentMutateFn_idem {gw : ObservabilityGateway} {cls : GatewayClass}
    {d d1 : Deployment} (h : deploymentMutateFn gw cls d = .ok d1) :
    deploymentMutateFn gw cls d1 = .ok d1 := by
  have hd := deploymentMutateFn_ok h
  unfold deploymentMutateFn at h
  cases hs : SetControllerReference gw { d.ObjectMeta with Labels := childLabels gw cls } with
  | error e => simp [hs] at h
  | ok m =>
    have hm := (SetControllerReference_ok hs).1
    have hi := SetControllerReference_idem hs
    have e1 : ({ d1.ObjectMeta with Labels := childLabels gw cls } : ObjectMeta) = m := by
      rw [hm, hd]
    have e2 : d1 = { d1 with ObjectMeta := m, Spec := deploymentSpecOf gw cls d1.ObjectMeta.Name } := by
      rw [hm]; subst hd; rfl
    unfold deploymentMutateFn
    simp only [e1, hi]
    exact congrArg Except.ok e2.symm

theorem serviceMutateFn_idem {gw : ObservabilityGateway} {cls : GatewayClass}
    {d d1 : Service} (h : serviceMutateFn gw cls d = .ok d1) :
    serviceMutateFn gw cls d1 = .ok d1 := by
  have hd := serviceMutateFn_ok h
  unfold serviceMutateFn at h
  cases hs : SetControllerReference gw { d.ObjectMeta with Labels := childLabels gw cls } with
  | error e => simp [hs] at h
  | ok m =>
    have hm := (SetControllerReference_ok hs).1
    have hi := SetControllerReference_idem hs
    have e1 : ({ d1.ObjectMeta with Labels := childLabels gw cls } : ObjectMeta) = m := by
      rw [hm, hd]
    have e2 : d1 = { d1 with ObjectMeta := m, Spec := serviceSpecOf cls d1.ObjectMeta.Name } := by
      rw [hm]; subst hd; rfl
    unfold serviceMutateFn
    simp only [e1, hi]
    exact congrArg Except.ok e2.symm

theorem deploymentMutateFn_good (gw : ObservabilityGateway) (cls : GatewayClass) :
    GoodMutate Deployment.ObjectMeta (deploymentMutateFn gw cls) (childLabels gw cls) where
  key x y h := by rw [deploymentMutateFn_ok h]; rfl
  labels x y h := by rw [deploymentMutateFn_ok h]
  idem x y h := deploymentMutateFn_idem h

theorem serviceMutateFn_good (gw : ObservabilityGateway) (cls : GatewayClass) :
    GoodMutate Service.ObjectMeta (serviceMutateFn gw cls) (childLabels gw cls) where
  key x y h := by rw [serviceMutateFn_ok h]; rfl
  labels x y h := by rw [serviceMutateFn_ok h]
  idem x y h := serviceMutateFn_idem h

theorem SetControllerReference_congr {gw : ObservabilityGateway} {m m1 m2 : ObjectMeta}
    (h : SetControllerReference gw m = .ok m1) (hns : m2.Namespace = m.Namespace)
    (ho : m2.OwnerReferences = m.OwnerReferences) :
    SetControllerReference gw m2 =
      .ok { m2 with OwnerReferences := upsertOwnerRef (controllerRef gw) m2.OwnerReferences } := by
  obtain ⟨_, hv, hc⟩ := SetControllerReference_ok h
  have hv2 : validateOwner gw.ObjectMeta m2 = .ok () := by
    unfold validateOwner at hv ⊢
    rw [hns]; exact hv
  have hg : GetControllerOf m2 = GetControllerOf m := by
    unfold GetControllerOf; rw [ho]
  unfold SetControllerReference
  rw [hv2, hg]
  cases hgc : GetControllerOf m with
  | none => rfl
  | some ex => simp [hc ex hgc]

theorem keepsMeta_of_deploymentFields {n : Deployment → Deployment}
    (h : KeepsDeploymentFields n) : KeepsMeta Deployment.ObjectMeta n := by
  intro d
  obtain ⟨_, h1, h2, h3, _⟩ := h d
  refine ⟨?_, h3⟩
  simp [keyOf, ObjectKeyFromObject, h1, h2]

theorem keepsMeta_of_serviceFields {n : Service → Service}
    (h : KeepsServiceFields n) : KeepsMeta Service.ObjectMeta n := by
  intro d
  obtain ⟨_, h1, h2, h3, _⟩ := h d
  refine ⟨?_, h3⟩
  simp [keyOf, ObjectKeyFromObject, h1, h2]

/-- The mutate closure leaves alone what a store that keeps the assigned fields made of the
closure's result. -/
theorem deploymentMutateFn_settles {n : Deployment → Deployment} (hn : KeepsDeploymentFields n)
    (gw : ObservabilityGateway) (cls : GatewayClass) (x y : Deployment)
    (h : deploymentMutateFn gw cls x = .ok y) :
    deploymentMutateFn gw cls (n y) = .ok (n y) := by
  have hy := deploymentMutateFn_idem h
  have hyeq := deploymentMutateFn_ok hy
  have hlab : y.ObjectMeta.Labels = childLabels gw cls := by
    have := congrArg (fun d => d.ObjectMeta.Labels) hyeq; exact this
  have hown : y.ObjectMeta.OwnerReferences
      = upsertOwnerRef (controllerRef gw) y.ObjectMeta.OwnerReferences := by
    have := congrArg (fun d => d.ObjectMeta.OwnerReferences) hyeq; exact this
  have hspec : y.Spec = deploymentSpecOf gw cls y.ObjectMeta.Name := by
    have := congrArg (fun d => d.Spec) hyeq; exact this
  obtain ⟨k1, k2, k3, k4, k5⟩ := hn y
  unfold deploymentMutateFn at hy
  cases hs : SetControllerReference gw { y.ObjectMeta with Labels := childLabels gw cls } with
  | error e => simp [hs] at hy
  | ok m =>
    have hc := @SetControllerReference_congr gw _ _
      { (n y).ObjectMeta with Labels := childLabels gw cls } hs k3 k5
    unfold deploymentMutateFn
    simp only [hc]
    congr 1
    cases hz : n y with
    | mk zm zs zst =>
      rw [hz] at k1 k2 k4 k5
      simp only at k1 k2 k4 k5
      cases zm
      simp only at k2 k4 k5 ⊢
      subst k1 k2 k4 k5
      rw [← hlab, ← hown, ← hspec]

/-- The mutate closure leaves alone what a store that keeps the assigned fields made of the
closure's result. -/
theorem serviceMutateFn_settles {n : Service → Service} (hn : KeepsServiceFields n)
    (gw : ObservabilityGateway) (cls : GatewayClass) (x y : Service)
    (h : serviceMutateFn gw cls x = .ok y) :
    serviceMutateFn gw cls (n y) = .ok (n y) := by
  have hy := serviceMutateFn_idem h
  have hyeq := serviceMutateFn_ok hy
  have hlab : y.ObjectMeta.Labels = childLabels gw cls := by
    have := congrArg (fun d => d.ObjectMeta.Labels) hyeq; exact this
  have hown : y.ObjectMeta.OwnerReferences
      = upsertOwnerRef (controllerRef gw) y.ObjectMeta.OwnerReferences := by
    have := congrArg (fun d => d.ObjectMeta.OwnerReferences) hyeq; exact this
  have hspec : y.Spec = serviceSpecOf cls y.ObjectMeta.Name := by
    have := congrArg (fun d => d.Spec) hyeq; exact this
  obtain ⟨k1, k2, k3, k4, k5⟩ := hn y
  unfold serviceMutateFn at hy
  cases hs : SetControllerReference gw { y.ObjectMeta with Labels := childLabels gw cls } with
  | error e => simp [hs] at hy
  | ok m =>
    have hc := @SetControllerReference_congr gw _ _
      { (n y).ObjectMeta with Labels := childLabels gw cls } hs k3 k5
    unfold serviceMutateFn
    simp only [hc]
    congr 1
    cases hz : n y with
    | mk zm zs zst =>
      rw [hz] at k1 k2 k4 k5
      simp only at k1 k2 k4 k5
      cases zm
      simp only at k2 k4 k5 ⊢
      subst k1 k2 k4 k5
      rw [← hlab, ← hown, ← hspec]

/-! ## `CreateOrUpdate` under the store conditions -/

theorem find?_key_none {α : Type} (metaOf : α → ObjectMeta) (l : List α) (key : NamespacedName)
    (h : l.find? (fun y => ObjectKeyFromObject (metaOf y) = key) = none) :
    ∀ y ∈ l, keyOf metaOf y ≠ key := by
  intro y hy
  have := List.find?_eq_none.1 h y hy
  simpa [keyOf] using this

theorem find?_key_some {α : Type} (metaOf : α → ObjectMeta) (l : List α) (key : NamespacedName)
    (x : α) (h : l.find? (fun y => ObjectKeyFromObject (metaOf y) = key) = some x) :
    x ∈ l ∧ keyOf metaOf x = key := by
  refine ⟨List.mem_of_find?_eq_some h, ?_⟩
  have := List.find?_some h
  simpa [keyOf] using this

theorem find?_key_of_nodup {α : Type} (metaOf : α → ObjectMeta) (l : List α)
    (hnd : (l.map fun y => ObjectKeyFromObject (metaOf y)).Nodup) (x : α) (hx : x ∈ l) :
    l.find? (fun y => ObjectKeyFromObject (metaOf y) = keyOf metaOf x) = some x := by
  induction l with
  | nil => cases hx
  | cons a rs ih =>
    rw [List.map_cons, List.nodup_cons] at hnd
    rcases List.mem_cons.1 hx with h | h
    · subst h; simp [keyOf]
    · have hne : ObjectKeyFromObject (metaOf a) ≠ keyOf metaOf x := by
        intro he
        exact hnd.1 (List.mem_map.2 ⟨x, h, by rw [he]; rfl⟩)
      rw [List.find?_cons]
      simp only [hne, decide_False]
      exact ih hnd.2 h

theorem eq_of_key_eq_of_nodup {α : Type} (metaOf : α → ObjectMeta) (l : List α)
    (hnd : (l.map fun y => ObjectKeyFromObject (metaOf y)).Nodup) (x y : α) (hx : x ∈ l)
    (hy : y ∈ l) (h : keyOf metaOf x = keyOf metaOf y) : x = y := by
  have h1 := find?_key_of_nodup metaOf l hnd x hx
  have h2 := find?_key_of_nodup metaOf l hnd y hy
  rw [h] at h1
  rw [h1] at h2
  exact Option.some.inj h2

theorem except_map_ok {ε α β : Type} (f : α → β) (x : α) :
    Except.map f (Except.ok x : Except ε α) = Except.ok (f x) := rfl

theorem except_map_eq_ok {ε α β : Type} {f : α → β} {x : Except ε α} {y : β}
    (h : x.map f = .ok y) : ∃ a, x = .ok a ∧ f a = y := by
  cases x with
  | error e => cases h
  | ok a => exact ⟨a, rfl, by simpa [Except.map] using h⟩

theorem except_map_eq_error {ε α β : Type} {f : α → β} {x : Except ε α} {e : ε}
    (h : x.map f = .error e) : x = .error e := by
  cases x with
  | error e1 => simpa [Except.map] using h
  | ok a => cases h

/-- The three outcomes of `CreateOrUpdate` through a client whose `Get`, `Create` and `Update`
of the kind meet the store conditions. -/
theorem CreateOrUpdate_view {σ α : Type} [DecidableEq α] (metaOf : α → ObjectMeta)
    (view : σ → Store) (proj : Store → List α) (inj : Store → List α → Store)
    (n : Store → α → α)
    (get : σ → NamespacedName → Except Err α) (create update : σ → α → Except Err σ)
    (hget : ∀ s k, get s k = memGet metaOf (proj (view s)) k)
    (hcreate : ∀ s x, (create s x).map view =
      (memCreate metaOf (proj (view s)) (n (view s) x)).map (inj (view s)))
    (hupdate : ∀ s x, (update s x).map view =
      (memUpdate metaOf (proj (view s)) (n (view s) x)).map (inj (view s)))
    (hn : ∀ m x, keyOf metaOf (n m x) = keyOf metaOf x)
    (s : σ) (obj : α) (f : α → Except Err α) :
    (∃ e, CreateOrUpdate get create update metaOf s obj f = (.error e, s)) ∨
    (CreateOrUpdate get create update metaOf s obj f = (.ok .unchanged, s) ∧
      StepL metaOf (keyOf metaOf obj) f (n (view s)) (proj (view s)) .unchanged
        (proj (view s))) ∨
    (∃ op s1 l1, op ≠ .unchanged ∧
      CreateOrUpdate get create update metaOf s obj f = (.ok op, s1) ∧
      view s1 = inj (view s) l1 ∧
      StepL metaOf (keyOf metaOf obj) f (n (view s)) (proj (view s)) op l1) := by
  unfold CreateOrUpdate
  simp only
  rw [hget]
  cases hfind : (proj (view s)).find?
      (fun y => ObjectKeyFromObject (metaOf y) = keyOf metaOf obj) with
  | none =>
    have hg : memGet metaOf (proj (view s)) (ObjectKeyFromObject (metaOf obj))
        = .error .notFound := by
      unfold memGet; unfold keyOf at hfind; rw [hfind]
    rw [hg]
    simp only [IsNotFound, if_true]
    cases hf : f obj with
    | error e => exact Or.inl ⟨e, rfl⟩
    | ok x1 =>
      simp only
      by_cases hk : ObjectKeyFromObject (metaOf x1) = ObjectKeyFromObject (metaOf obj)
      · have hno := find?_key_none metaOf (proj (view s)) _ hfind
        have hkn : ObjectKeyFromObject (metaOf (n (view s) x1))
            = ObjectKeyFromObject (metaOf obj) := (hn (view s) x1).trans hk
        have hany : (proj (view s)).any
            (fun x => decide (ObjectKeyFromObject (metaOf x)
              = ObjectKeyFromObject (metaOf (n (view s) x1)))) = false := by
          rw [List.any_eq_false]
          intro y hy
          have := hno y hy
          rw [hkn]
          simpa [keyOf] using this
        have hc : memCreate metaOf (proj (view s)) (n (view s) x1)
            = .ok (proj (view s) ++ [n (view s) x1]) := by
          unfold memCreate; rw [hany]; rfl
        have hcr := hcreate s x1
        rw [hc, except_map_ok] at hcr
        obtain ⟨s1, hs1, hv1⟩ := except_map_eq_ok hcr
        refine Or.inr (Or.inr ⟨.created, s1, _, by decide, ?_, hv1, ?_⟩)
        · simp [hk, hs1]
        · exact StepL.created obj x1 hno hf hk
      · exact Or.inl ⟨.mutatedKey, by simp [hk]⟩
  | some ex =>
    have hg : memGet metaOf (proj (view s)) (ObjectKeyFromObject (metaOf obj)) = .ok ex := by
      unfold memGet; unfold keyOf at hfind; rw [hfind]
    obtain ⟨hmem, hkey⟩ := find?_key_some metaOf (proj (view s)) _ ex hfind
    rw [hg]
    simp only
    cases hf : f ex with
    | error e => exact Or.inl ⟨e, rfl⟩
    | ok x1 =>
      simp only
      by_cases hk : ObjectKeyFromObject (metaOf x1) = ObjectKeyFromObject (metaOf obj)
      · by_cases heq : ex = x1
        · subst heq
          exact Or.inr (Or.inl ⟨by simp [hk], StepL.unchanged ex hmem hkey hf⟩)
        · have hkn : ObjectKeyFromObject (metaOf (n (view s) x1))
              = ObjectKeyFromObject (metaOf obj) := (hn (view s) x1).trans hk
          have hany : (proj (view s)).any
              (fun x => decide (ObjectKeyFromObject (metaOf x)
                = ObjectKeyFromObject (metaOf (n (view s) x1)))) = true := by
            rw [List.any_eq_true]
            exact ⟨ex, hmem, by rw [hkn]; simpa [keyOf] using hkey⟩
          have hu : memUpdate metaOf (proj (view s)) (n (view s) x1)
              = .ok ((proj (view s)).map fun y =>
                if keyOf metaOf y = keyOf metaOf obj then n (view s) x1 else y) := by
            unfold memUpdate; rw [hany]; simp only [if_true, hkn]; rfl
          have hup := hupdate s x1
          rw [hu, except_map_ok] at hup
          obtain ⟨s1, hs1, hv1⟩ := except_map_eq_ok hup
          refine Or.inr (Or.inr ⟨.updated, s1, _, by decide, ?_, hv1,
            StepL.updated ex x1 hmem hkey hf hk⟩)
          simp [hk, heq, hs1]
      · exact Or.inl ⟨.mutatedKey, by simp [hk]⟩

/-! ## What one successful `CreateOrUpdate` does to the stored objects -/

theorem StepL.keys {α : Type} {metaOf : α → ObjectMeta} {key : NamespacedName}
    {f : α → Except Err α} {n : α → α} {l l1 : List α} {op : OperationResult}
    (h : StepL metaOf key f n l op l1) (hn : KeepsMeta metaOf n)
    (hnd : (l.map fun y => ObjectKeyFromObject (metaOf y)).Nodup) :
    (l1.map fun y => ObjectKeyFromObject (metaOf y)).Nodup := by
  cases h with
  | created x0 x1 hno hf hk =>
    rw [List.map_append, List.nodup_append]
    refine ⟨hnd, by simp, ?_⟩
    intro a ha hb
    simp only [List.map_cons, List.map_nil, List.mem_singleton] at hb
    obtain ⟨y, hy, hya⟩ := List.mem_map.1 ha
    apply hno y hy
    show ObjectKeyFromObject (metaOf y) = key
    rw [hya, hb]; exact ((hn x1).1).trans hk
  | unchanged ex hmem hkey hf => exact hnd
  | updated ex x1 hmem hkey hf hk =>
    have : (List.map (fun y => ObjectKeyFromObject (metaOf y))
        (l.map fun y => if keyOf metaOf y = key then n x1 else y))
        = l.map fun y => ObjectKeyFromObject (metaOf y) := by
      rw [List.map_map]
      apply List.map_congr_left
      intro y _
      simp only [Function.comp]
      by_cases hy : keyOf metaOf y = key
      · simp only [hy, if_true]; exact ((hn x1).1.trans hk).trans hy.symm
      · simp only [hy, if_false]
    rw [this]; exact hnd

theorem StepL.synced {α : Type} {metaOf : α → ObjectMeta} {key : NamespacedName}
    {f : α → Except Err α} {n : α → α} {l l1 : List α} {op : OperationResult}
    (h : StepL metaOf key f n l op l1) (hn : KeepsMeta metaOf n)
    (hfix : ∀ x y, f x = .ok y → f (n y) = .ok (n y)) :
    Synced metaOf key f l1 := by
  cases h with
  | created x0 x1 hno hf hk =>
    exact ⟨n x1, by simp, (hn x1).1.trans hk, hfix x0 x1 hf⟩
  | unchanged ex hmem hkey hf => exact ⟨ex, hmem, hkey, hf⟩
  | updated ex x1 hmem hkey hf hk =>
    refine ⟨n x1, ?_, (hn x1).1.trans hk, hfix ex x1 hf⟩
    exact List.mem_map.2 ⟨ex, hmem, by simp [hkey]⟩

theorem StepL.labelled {α : Type} {metaOf : α → ObjectMeta} {key : NamespacedName}
    {f : α → Except Err α} {n : α → α} {l l1 : List α} {op : OperationResult}
    {labels : StrMap}
    (h : StepL metaOf key f n l op l1) (hg : GoodMutate metaOf f labels)
    (hn : KeepsMeta metaOf n) : Labelled metaOf key labels l1 := by
  cases h with
  | created x0 x1 hno hf hk =>
    exact ⟨n x1, by simp, (hn x1).1.trans hk, (hn x1).2.trans (hg.labels x0 x1 hf)⟩
  | unchanged ex hmem hkey hf => exact ⟨ex, hmem, hkey, hg.labels ex ex hf⟩
  | updated ex x1 hmem hkey hf hk =>
    refine ⟨n x1, ?_, (hn x1).1.trans hk, (hn x1).2.trans (hg.labels ex x1 hf)⟩
    exact List.mem_map.2 ⟨ex, hmem, by simp [hkey]⟩

theorem StepL.mem_cases {α : Type} {metaOf : α → ObjectMeta} {key : NamespacedName}
    {f : α → Except Err α} {n : α → α} {l l1 : List α} {op : OperationResult}
    {labels : StrMap}
    (h : StepL metaOf key f n l op l1) (hg : GoodMutate metaOf f labels)
    (hn : KeepsMeta metaOf n) :
    ∀ x ∈ l1, x ∈ l ∨ (keyOf metaOf x = key ∧ (metaOf x).Labels = labels) := by
  intro x hx
  cases h with
  | created x0 x1 hno hf hk =>
    rcases List.mem_append.1 hx with h1 | h1
    · exact Or.inl h1
    · simp only [List.mem_singleton] at h1
      subst h1
      exact Or.inr ⟨(hn x1).1.trans hk, (hn x1).2.trans (hg.labels x0 x1 hf)⟩
  | unchanged ex hmem hkey hf => exact Or.inl hx
  | updated ex x1 hmem hkey hf hk =>
    obtain ⟨y, hy, hyx⟩ := List.mem_map.1 hx
    by_cases hyk : keyOf metaOf y = key
    · simp only [hyk, if_true] at hyx
      subst hyx
      exact Or.inr ⟨(hn x1).1.trans hk, (hn x1).2.trans (hg.labels ex x1 hf)⟩
    · simp only [hyk, if_false] at hyx
      subst hyx
      exact Or.inl hy

theorem StepL.keep {α : Type} {metaOf : α → ObjectMeta} {key : NamespacedName}
    {f : α → Except Err α} {n : α → α} {l l1 : List α} {op : OperationResult}
    (h : StepL metaOf key f n l op l1) :
    ∀ x ∈ l, keyOf metaOf x ≠ key → x ∈ l1 := by
  intro x hx hne
  cases h with
  | created x0 x1 hno hf hk => exact List.mem_append.2 (Or.inl hx)
  | unchanged ex hmem hkey hf => exact hx
  | updated ex x1 hmem hkey hf hk =>
    exact List.mem_map.2 ⟨x, hx, by simp [hne]⟩

theorem StepL.keep_synced {α : Type} {metaOf : α → ObjectMeta} {key key2 : NamespacedName}
    {f g : α → Except Err α} {n : α → α} {l l1 : List α} {op : OperationResult}
    (h : StepL metaOf key f n l op l1) (hne : key2 ≠ key) (hs : Synced metaOf key2 g l) :
    Synced metaOf key2 g l1 := by
  obtain ⟨d, hd, hk, hf⟩ := hs
  exact ⟨d, h.keep d hd (by rw [hk]; exact hne), hk, hf⟩

theorem StepL.keep_labelled {α : Type} {metaOf : α → ObjectMeta} {key key2 : NamespacedName}
    {f : α → Except Err α} {n : α → α} {l l1 : List α} {op : OperationResult}
    {labels labels2 : StrMap}
    (h : StepL metaOf key f n l op l1) (hg : GoodMutate metaOf f labels)
    (hn : KeepsMeta metaOf n)
    (hsame : key2 = key → labels2 = labels) (hs : Labelled metaOf key2 labels2 l) :
    Labelled metaOf key2 labels2 l1 := by
  by_cases hk : key2 = key
  · have := h.labelled hg hn
    rw [hk, hsame hk]; exact this
  · obtain ⟨d, hd, hkd, hl⟩ := hs
    exact ⟨d, h.keep d hd (by rw [hkd]; exact hk), hkd, hl⟩

theorem StepL.namedByClass {α : Type} {metaOf : α → ObjectMeta} {gw : ObservabilityGateway}
    {cls : GatewayClass} {f : α → Except Err α} {n : α → α} {l l1 : List α}
    {op : OperationResult}
    (h : StepL metaOf (childKey gw cls) f n l op l1)
    (hg : GoodMutate metaOf f (childLabels gw cls)) (hn : KeepsMeta metaOf n)
    (hnc : NamedByClass metaOf gw.ObjectMeta.Namespace gw.ObjectMeta.Name l) :
    NamedByClass metaOf gw.ObjectMeta.Namespace gw.ObjectMeta.Name l1 := by
  intro x hx hch
  rcases h.mem_cases hg hn x hx with h1 | ⟨hk, hl⟩
  · exact hnc x h1 hch
  · rw [classNameOf_childLabels gw cls _ hl]
    have := congrArg NamespacedName.Name hk
    exact this

/-! ## One class -/

theorem reconcileDeployment_view {σ : Type} {r : Client σ} {view : σ → Store}
    {nd : Store → Deployment → Deployment} {nv : Store → Service → Service}
    (hst : StoreConditions r view nd nv) (hnd : ∀ m, KeepsMeta Deployment.ObjectMeta (nd m))
    (gw : ObservabilityGateway) (cls : GatewayClass) (s : σ) :
    (∃ e, reconcileDeployment r gw cls s = (.error e, s)) ∨
    (∃ op s1, reconcileDeployment r gw cls s = (.ok op, s1) ∧
      DepStep gw cls (nd (view s)) (view s) op (view s1)) := by
  rcases CreateOrUpdate_view Deployment.ObjectMeta view Store.deployments Store.withDeployments
    nd r.GetDeployment r.CreateDeployment r.UpdateDeployment hst.getDeployment
    hst.createDeployment hst.updateDeployment (fun m x => (hnd m x).1) s
    { ObjectMeta :=
        { Name := childName gw.ObjectMeta.Name cls.Name, Namespace := gw.ObjectMeta.Namespace } }
    (deploymentMutateFn gw cls) with ⟨e, he⟩ | ⟨h1, hstep⟩ | ⟨op, s1, l1, _, h1, hv, hstep⟩
  · exact Or.inl ⟨e, he⟩
  · exact Or.inr ⟨.unchanged, s, h1, hstep, rfl, rfl⟩
  · refine Or.inr ⟨op, s1, h1, ?_, ?_, ?_⟩
    · rw [hv]; exact hstep
    · rw [hv]; rfl
    · rw [hv]; rfl

theorem reconcileService_view {σ : Type} {r : Client σ} {view : σ → Store}
    {nd : Store → Deployment → Deployment} {nv : Store → Service → Service}
    (hst : StoreConditions r view nd nv) (hnv : ∀ m, KeepsMeta Service.ObjectMeta (nv m))
    (gw : ObservabilityGateway) (cls : GatewayClass) (s : σ) :
    (∃ e, reconcileService r gw cls s = (.error e, s)) ∨
    (∃ op s1, reconcileService r gw cls s = (.ok op, s1) ∧
      SvcStep gw cls (nv (view s)) (view s) op (view s1)) := by
  rcases CreateOrUpdate_view Service.ObjectMeta view Store.services Store.withServices
    nv r.GetService r.CreateService r.UpdateService hst.getService
    hst.createService hst.updateService (fun m x => (hnv m x).1) s
    { ObjectMeta :=
        { Name := childName gw.ObjectMeta.Name cls.Name, Namespace := gw.ObjectMeta.Namespace } }
    (serviceMutateFn gw cls) with ⟨e, he⟩ | ⟨h1, hstep⟩ | ⟨op, s1, l1, _, h1, hv, hstep⟩
  · exact Or.inl ⟨e, he⟩
  · exact Or.inr ⟨.unchanged, s, h1, hstep, rfl, rfl⟩
  · refine Or.inr ⟨op, s1, h1, ?_, ?_, ?_⟩
    · rw [hv]; exact hstep
    · rw [hv]; rfl
    · rw [hv]; rfl

/-- `CreateOrUpdate` on an object the mutate function leaves alone: the outcome is `unchanged`
and the state is handed back; neither `Create` nor `Update` is called. -/
theorem CreateOrUpdate_unchanged {σ α : Type} [DecidableEq α] (metaOf : α → ObjectMeta)
    (get : σ → NamespacedName → Except Err α) (create update : σ → α → Except Err σ)
    (s : σ) (obj d : α) (f : α → Except Err α)
    (hget : get s (ObjectKeyFromObject (metaOf obj)) = .ok d)
    (hk : ObjectKeyFromObject (metaOf d) = ObjectKeyFromObject (metaOf obj))
    (hf : f d = .ok d) :
    CreateOrUpdate get create update metaOf s obj f = (.ok .unchanged, s) := by
  unfold CreateOrUpdate
  simp only
  rw [hget]
  simp only [hf]
  simp [hk]

/-- A deployment the mutate function leaves alone is reported unchanged and the state is
handed back. -/
theorem reconcileDeployment_synced {σ : Type} {r : Client σ} {view : σ → Store}
    {nd : Store → Deployment → Deployment} {nv : Store → Service → Service}
    (hst : StoreConditions r view nd nv)
    (gw : ObservabilityGateway) (cls : GatewayClass) (s : σ)
    (hnd : ((view s).deployments.map fun y => ObjectKeyFromObject y.ObjectMeta).Nodup)
    (h : Synced Deployment.ObjectMeta (childKey gw cls) (deploymentMutateFn gw cls)
      (view s).deployments) :
    reconcileDeployment r gw cls s = (.ok .unchanged, s) := by
  obtain ⟨d, hd, hk, hf⟩ := h
  have hfind := find?_key_of_nodup Deployment.ObjectMeta (view s).deployments hnd d hd
  rw [hk] at hfind
  have hget : r.GetDeployment s (childKey gw cls) = .ok d := by
    rw [hst.getDeployment]; unfold memGet; rw [hfind]
  exact CreateOrUpdate_unchanged Deployment.ObjectMeta _ _ _ s _ d _ hget hk hf

/-- A service the mutate function leaves alone is reported unchanged and the state is handed
back. -/
theorem reconcileService_synced {σ : Type} {r : Client σ} {view : σ → Store}
    {nd : Store → Deployment → Deployment} {nv : Store → Service → Service}
    (hst : StoreConditions r view nd nv)
    (gw : ObservabilityGateway) (cls : GatewayClass) (s : σ)
    (hnd : ((view s).services.map fun y => ObjectKeyFromObject y.ObjectMeta).Nodup)
    (h : Synced Service.ObjectMeta (childKey gw cls) (serviceMutateFn gw cls)
      (view s).services) :
    reconcileService r gw cls s = (.ok .unchanged, s) := by
  obtain ⟨d, hd, hk, hf⟩ := h
  have hfind := find?_key_of_nodup Service.ObjectMeta (view s).services hnd d hd
  rw [hk] at hfind
  have hget : r.GetService s (childKey gw cls) = .ok d := by
    rw [hst.getService]; unfold memGet; rw [hfind]
  exact CreateOrUpdate_unchanged Service.ObjectMeta _ _ _ s _ d _ hget hk hf

/-! ## The class loop -/

theorem reconcileClasses_names {σ : Type} (r : Client σ) (gw : ObservabilityGateway) :
    ∀ (classes : List GatewayClass) (names : List String) (log : List LogEntry) (s : σ)
      (names1 : List String) (log1 : List LogEntry) (s1 : σ),
      reconcileClasses r gw classes names log s = (none, names1, log1, s1) →
      names1 = (classes.map fun c => c.Name).reverse ++ names := by
  intro classes
  induction classes with
  | nil =>
    intro names log s names1 log1 s1 h
    simp only [reconcileClasses, Prod.mk.injEq] at h
    simp [h.2.1.symm]
  | cons cls rest ih =>
    intro names log s names1 log1 s1 h
    simp only [reconcileClasses] at h
    cases hd : reconcileDeployment r gw cls s with
    | mk res sa =>
      rw [hd] at h
      cases res with
      | error e => simp at h
      | ok op =>
        simp only at h
        cases hs : reconcileService r gw cls sa with
        | mk res2 sb =>
          rw [hs] at h
          cases res2 with
          | error e => simp at h
          | ok op2 =>
            simp only at h
            rw [ih _ _ _ _ _ _ h]
            simp

theorem reconcileClasses_preserves {σ : Type} {r : Client σ} {view : σ → Store}
    {nd : Store → Deployment → Deployment} {nv : Store → Service → Service}
    (hst : StoreConditions r view nd nv) (hnd : ∀ m, KeepsMeta Deployment.ObjectMeta (nd m))
    (hnv : ∀ m, KeepsMeta Service.ObjectMeta (nv m))
    (gw : ObservabilityGateway) (P : Store → Prop) :
    ∀ (classes : List GatewayClass),
      (∀ cls ∈ classes, ∀ m op m1, P m → DepStep gw cls (nd m) m op m1 → P m1) →
      (∀ cls ∈ classes, ∀ m op m1, P m → SvcStep gw cls (nv m) m op m1 → P m1) →
      ∀ (names : List String) (log : List LogEntry) (s : σ), P (view s) →
        P (view (reconcileClasses r gw classes names log s).2.2.2) := by
  intro classes
  induction classes with
  | nil => intro _ _ names log s hP; simpa [reconcileClasses] using hP
  | cons cls rest ih =>
    intro hD hS names log s hP
    simp only [reconcileClasses]
    rcases reconcileDeployment_view hst hnd gw cls s with ⟨e, he⟩ | ⟨op, sa, ha, hsa⟩
    · rw [he]; exact hP
    · rw [ha]
      simp only
      have hPa := hD cls (List.mem_cons_self _ _) _ op _ hP hsa
      rcases reconcileService_view hst hnv gw cls sa with ⟨e, he⟩ | ⟨op2, sb, hb, hsb⟩
      · rw [he]; exact hPa
      · rw [hb]
        simp only
        have hPb := hS cls (List.mem_cons_self _ _) _ op2 _ hPa hsb
        exact ih (fun c hc => hD c (List.mem_cons_of_mem _ hc))
          (fun c hc => hS c (List.mem_cons_of_mem _ hc)) _ _ sb hPb

theorem reconcileClasses_preserves_eq {σ : Type} {r : Client σ} {view : σ → Store}
    {nd : Store → Deployment → Deployment} {nv : Store → Service → Service}
    (hst : StoreConditions r view nd nv) (hnd : ∀ m, KeepsMeta Deployment.ObjectMeta (nd m))
    (hnv : ∀ m, KeepsMeta Service.ObjectMeta (nv m))
    (gw : ObservabilityGateway) (P : Store → Prop) (classes : List GatewayClass)
    (hD : ∀ cls ∈ classes, ∀ m op m1, P m → DepStep gw cls (nd m) m op m1 → P m1)
    (hS : ∀ cls ∈ classes, ∀ m op m1, P m → SvcStep gw cls (nv m) m op m1 → P m1)
    {names : List String} {log : List LogEntry} {s : σ} {e : Option Err}
    {names1 : List String} {log1 : List LogEntry} {s1 : σ}
    (h : reconcileClasses r gw classes names log s = (e, names1, log1, s1))
    (hP : P (view s)) : P (view s1) := by
  have := reconcileClasses_preserves hst hnd hnv gw P classes hD hS names log s hP
  rw [h] at this
  exact this

theorem reconcileClasses_establish {σ : Type} {r : Client σ} {view : σ → Store}
    {nd : Store → Deployment → Deployment} {nv : Store → Service → Service}
    (hst : StoreConditions r view nd nv) (hnd : ∀ m, KeepsMeta Deployment.ObjectMeta (nd m))
    (hnv : ∀ m, KeepsMeta Service.ObjectMeta (nv m))
    (gw : ObservabilityGateway)
    (Q : GatewayClass → Store → Prop) (R : GatewayClass → GatewayClass → Prop)
    (hest : ∀ cls m op1 m1 op2 m2, DepStep gw cls (nd m) m op1 m1 →
      SvcStep gw cls (nv m1) m1 op2 m2 → Q cls m2)
    (hD : ∀ c cls m op m1, R c cls → Q c m → DepStep gw cls (nd m) m op m1 → Q c m1)
    (hS : ∀ c cls m op m1, R c cls → Q c m → SvcStep gw cls (nv m) m op m1 → Q c m1) :
    ∀ (classes : List GatewayClass) (names : List String) (log : List LogEntry) (s : σ)
      (names1 : List String) (log1 : List LogEntry) (s1 : σ),
      classes.Pairwise R →
      reconcileClasses r gw classes names log s = (none, names1, log1, s1) →
      ∀ c ∈ classes, Q c (view s1) := by
  intro classes
  induction classes with
  | nil => intro _ _ _ _ _ _ _ _ c hc; cases hc
  | cons cls rest ih =>
    intro names log s names1 log1 s1 hpw h c hc
    rw [List.pairwise_cons] at hpw
    simp only [reconcileClasses] at h
    rcases reconcileDeployment_view hst hnd gw cls s with ⟨e, he⟩ | ⟨op, sa, ha, hsa⟩
    · rw [he] at h; simp at h
    · rw [ha] at h
      simp only at h
      rcases reconcileService_view hst hnv gw cls sa with ⟨e, he⟩ | ⟨op2, sb, hb, hsb⟩
      · rw [he] at h; simp at h
      · rw [hb] at h
        simp only at h
        rcases List.mem_cons.1 hc with hc1 | hc1
        · subst hc1
          have hQ : Q c (view sb) := hest c _ op _ op2 _ hsa hsb
          exact reconcileClasses_preserves_eq hst hnd hnv gw (Q c) rest
            (fun c2 hc2 m op m1 hq hstep => hD c c2 m op m1 (hpw.1 c2 hc2) hq hstep)
            (fun c2 hc2 m op m1 hq hstep => hS c c2 m op m1 (hpw.1 c2 hc2) hq hstep) h hQ
        · exact ih _ _ sb names1 log1 s1 hpw.2 h c hc1

theorem reconcileClasses_synced {σ : Type} {r : Client σ} {view : σ → Store}
    {nd : Store → Deployment → Deployment} {nv : Store → Service → Service}
    (hst : StoreConditions r view nd nv)
    (gw : ObservabilityGateway) (s : σ) (hwf : (view s).WF) :
    ∀ (classes : List GatewayClass) (names : List String) (log : List LogEntry),
      (∀ c ∈ classes, BothSynced gw c (view s)) →
      reconcileClasses r gw classes names log s =
        (none, (classes.map fun c => c.Name).reverse ++ names,
          log ++ classes.flatMap (unchangedLog gw), s) := by
  intro classes
  induction classes with
  | nil => intro names log _; simp [reconcileClasses]
  | cons cls rest ih =>
    intro names log h
    have hc := h cls (List.mem_cons_self _ _)
    simp only [reconcileClasses]
    rw [reconcileDeployment_synced hst gw cls s hwf.1 hc.1]
    simp only
    rw [reconcileService_synced hst gw cls s hwf.2 hc.2]
    simp only
    rw [ih _ _ (fun c hc => h c (List.mem_cons_of_mem _ hc))]
    simp [unchangedLog]

/-! ## The delete loops -/

theorem deleteRemoved_append {σ α : Type} (delete : σ → α → Except Err σ)
    (metaOf : α → ObjectMeta) (cur : List String) :
    ∀ (pre post : List α) (s : σ),
      deleteRemoved delete metaOf cur (pre ++ post) s =
        match deleteRemoved delete metaOf cur pre s with
        | (some e, t) => (some e, t)
        | (none, t) => deleteRemoved delete metaOf cur post t := by
  intro pre
  induction pre with
  | nil => intro post s; simp [deleteRemoved]
  | cons a pre ih =>
    intro post s
    simp only [List.cons_append, deleteRemoved]
    by_cases hc : classNameOf (metaOf a) ∈ cur
    · simp only [hc, not_true_eq_false, if_false]
      exact ih post s
    · simp only [hc, not_false_eq_true, if_true]
      cases hd : delete s a with
      | error e => simp
      | ok s1 => simp only; exact ih post s1

theorem deleteRemoved_noop {σ α : Type} (delete : σ → α → Except Err σ)
    (metaOf : α → ObjectMeta) (cur : List String) :
    ∀ (items : List α) (s : σ), (∀ x ∈ items, classNameOf (metaOf x) ∈ cur) →
      deleteRemoved delete metaOf cur items s = (none, s) := by
  intro items
  induction items with
  | nil => intro s _; simp [deleteRemoved]
  | cons a rest ih =>
    intro s h
    have ha := h a (List.mem_cons_self _ _)
    simp only [deleteRemoved, ha, not_true_eq_false, if_false]
    exact ih s (fun x hx => h x (List.mem_cons_of_mem _ hx))

theorem deleteRemoved_view {σ α : Type} [DecidableEq α] (metaOf : α → ObjectMeta)
    (view : σ → Store) (proj : Store → List α) (inj : Store → List α → Store)
    (del : σ → α → Except Err σ)
    (hdel : ∀ s x, (del s x).map view =
      (memDelete metaOf (proj (view s)) x).map (inj (view s)))
    (h1 : ∀ m l, proj (inj m l) = l)
    (h3 : ∀ m l l1, inj (inj m l) l1 = inj m l1)
    (h4 : ∀ m, inj m (proj m) = m)
    (cur : List String) :
    ∀ (items : List α) (s : σ),
      ((proj (view s)).map fun y => ObjectKeyFromObject (metaOf y)).Nodup →
      items.Nodup → (∀ x ∈ items, x ∈ proj (view s)) →
      ∃ s1, deleteRemoved del metaOf cur items s = (none, s1) ∧
        view s1 = inj (view s)
          ((proj (view s)).filter fun y =>
            !(decide (y ∈ items) && decide (classNameOf (metaOf y) ∉ cur))) := by
  intro items
  induction items with
  | nil =>
    intro s _ _ _
    exact ⟨s, by simp [deleteRemoved], by simp [h4]⟩
  | cons obj rest ih =>
    intro s hnd hitems hall
    have hobj : obj ∈ proj (view s) := hall obj (List.mem_cons_self _ _)
    rw [List.nodup_cons] at hitems
    have hrest : ∀ x ∈ rest, x ∈ proj (view s) := fun x hx => hall x (List.mem_cons_of_mem _ hx)
    simp only [deleteRemoved]
    by_cases hc : classNameOf (metaOf obj) ∈ cur
    · simp only [hc, not_true_eq_false, if_false]
      obtain ⟨s1, hs1, hv1⟩ := ih s hnd hitems.2 hrest
      refine ⟨s1, hs1, ?_⟩
      rw [hv1]
      congr 1
      apply List.filter_congr
      intro y _
      by_cases hy : y = obj
      · subst hy; simp [hc]
      · simp [hy]
    · simp only [hc, not_false_eq_true, if_true]
      have hany : (proj (view s)).any
          (fun x => decide (ObjectKeyFromObject (metaOf x) = ObjectKeyFromObject (metaOf obj)))
            = true := by
        rw [List.any_eq_true]; exact ⟨obj, hobj, by simp⟩
      have hd : memDelete metaOf (proj (view s)) obj = .ok ((proj (view s)).filter fun x =>
          ObjectKeyFromObject (metaOf x) ≠ ObjectKeyFromObject (metaOf obj)) := by
        unfold memDelete; rw [hany]; rfl
      have hdl := hdel s obj
      rw [hd, except_map_ok] at hdl
      obtain ⟨sa, hsa, hva⟩ := except_map_eq_ok hdl
      rw [hsa]
      simp only
      have hpa : proj (view sa) = (proj (view s)).filter fun x =>
          ObjectKeyFromObject (metaOf x) ≠ ObjectKeyFromObject (metaOf obj) := by
        rw [hva, h1]
      have hnd1 : ((proj (view sa)).map fun y => ObjectKeyFromObject (metaOf y)).Nodup := by
        rw [hpa]
        exact List.Nodup.sublist ((List.filter_sublist _).map _) hnd
      have hall1 : ∀ x ∈ rest, x ∈ proj (view sa) := by
        intro x hx
        rw [hpa, List.mem_filter]
        refine ⟨hrest x hx, ?_⟩
        have : ObjectKeyFromObject (metaOf x) ≠ ObjectKeyFromObject (metaOf obj) := by
          intro he
          have := eq_of_key_eq_of_nodup metaOf (proj (view s)) hnd x obj (hrest x hx) hobj he
          exact hitems.1 (this ▸ hx)
        simpa using this
      obtain ⟨s1, hs1, hv1⟩ := ih sa hnd1 hitems.2 hall1
      refine ⟨s1, hs1, ?_⟩
      rw [hv1, hpa, hva, h3]
      congr 1
      rw [List.filter_filter]
      apply List.filter_congr
      intro y hy
      by_cases hyo : y = obj
      · subst hyo; simp [hc]
      · have hk : ObjectKeyFromObject (metaOf y) ≠ ObjectKeyFromObject (metaOf obj) := by
          intro he
          exact hyo (eq_of_key_eq_of_nodup metaOf (proj (view s)) hnd y obj hy hobj he)
        simp [hyo, hk]

theorem memList_eq_filter {α : Type} (metaOf : α → ObjectMeta) (l : List α)
    (ns gwName : String) :
    memList metaOf l ns [(partOfLabel, gwName)] = l.filter fun x => isChildOf ns gwName (metaOf x) :=
  rfl

theorem filter_listed_removed {α : Type} [DecidableEq α] (metaOf : α → ObjectMeta) (l : List α)
    (ns gwName : String) (cur : List String) (items : List α)
    (hitems : items.Perm (memList metaOf l ns [(partOfLabel, gwName)])) :
    (l.filter fun y => !(decide (y ∈ items) && decide (classNameOf (metaOf y) ∉ cur)))
      = l.filter fun y => !isRemoved ns gwName cur (metaOf y) := by
  apply List.filter_congr
  intro y hy
  have : decide (y ∈ items) = isChildOf ns gwName (metaOf y) := by
    rw [Bool.eq_iff_iff, decide_eq_true_iff, hitems.mem_iff, mem_memList]
    exact ⟨fun h => h.2, fun h => ⟨hy, h⟩⟩
  rw [this]; rfl

theorem nodup_of_keys_nodup {α : Type} (metaOf : α → ObjectMeta) (l : List α)
    (h : (l.map fun y => ObjectKeyFromObject (metaOf y)).Nodup) : l.Nodup :=
  List.Nodup.of_map _ h

/-- Under the store conditions, on a content with unique keys, `cleanupRemovedClasses`
succeeds and leaves the content without the removed children of both kinds. -/
theorem cleanupRemovedClasses_view {σ : Type} {r : Client σ} {view : σ → Store}
    {nd : Store → Deployment → Deployment} {nv : Store → Service → Service}
    (hst : StoreConditions r view nd nv)
    (gw : ObservabilityGateway) (cur : List String) (s : σ) (hwf : (view s).WF) :
    ∃ s1, cleanupRemovedClasses r gw cur s = (none, s1) ∧
      view s1 = pruned gw cur (view s) := by
  obtain ⟨l, hl, hperm⟩ := hst.listDeployments s gw.ObjectMeta.Namespace
    [(partOfLabel, gw.ObjectMeta.Name)]
  have hlnd : l.Nodup :=
    hperm.nodup_iff.2 ((nodup_of_keys_nodup _ _ hwf.1).sublist (List.filter_sublist _))
  have hlmem : ∀ x ∈ l, x ∈ (view s).deployments := fun x hx =>
    ((mem_memList _ _ _ _ _).1 (hperm.mem_iff.1 hx)).1
  obtain ⟨sa, hsa, hva⟩ := deleteRemoved_view Deployment.ObjectMeta view Store.deployments
    Store.withDeployments r.DeleteDeployment hst.deleteDeployment (fun _ _ => rfl)
    (fun _ _ _ => rfl) (fun _ => rfl) cur l s hwf.1 hlnd hlmem
  rw [filter_listed_removed _ _ _ _ _ _ hperm] at hva
  obtain ⟨l2, hl2, hperm2⟩ := hst.listServices sa gw.ObjectMeta.Namespace
    [(partOfLabel, gw.ObjectMeta.Name)]
  have hsv : (view sa).services = (view s).services := by rw [hva]; rfl
  have hwf2 : ((view sa).services.map fun y => ObjectKeyFromObject y.ObjectMeta).Nodup := by
    rw [hsv]; exact hwf.2
  have hl2nd : l2.Nodup :=
    hperm2.nodup_iff.2 ((nodup_of_keys_nodup _ _ hwf2).sublist (List.filter_sublist _))
  have hl2mem : ∀ x ∈ l2, x ∈ (view sa).services := fun x hx =>
    ((mem_memList _ _ _ _ _).1 (hperm2.mem_iff.1 hx)).1
  obtain ⟨sb, hsb, hvb⟩ := deleteRemoved_view Service.ObjectMeta view Store.services
    Store.withServices r.DeleteService hst.deleteService (fun _ _ => rfl)
    (fun _ _ _ => rfl) (fun _ => rfl) cur l2 sa hwf2 hl2nd hl2mem
  rw [filter_listed_removed _ _ _ _ _ _ hperm2] at hvb
  refine ⟨sb, ?_, ?_⟩
  · unfold cleanupRemovedClasses
    rw [hl]
    simp only
    rw [hsa]
    simp only
    rw [hl2]
    simp only
    exact hsb
  · rw [hvb, hsv, hva]
    rfl

/-- Under the store conditions, when no stored child of the parent is removed,
`cleanupRemovedClasses` succeeds and hands the state back: no `Delete` is called. -/
theorem cleanupRemovedClasses_noop {σ : Type} {r : Client σ} {view : σ → Store}
    {nd : Store → Deployment → Deployment} {nv : Store → Service → Service}
    (hst : StoreConditions r view nd nv)
    (gw : ObservabilityGateway) (cur : List String) (s : σ)
    (hD : ∀ d ∈ (view s).deployments,
      isRemoved gw.ObjectMeta.Namespace gw.ObjectMeta.Name cur d.ObjectMeta = false)
    (hS : ∀ v ∈ (view s).services,
      isRemoved gw.ObjectMeta.Namespace gw.ObjectMeta.Name cur v.ObjectMeta = false) :
    cleanupRemovedClasses r gw cur s = (none, s) := by
  obtain ⟨l, hl, hperm⟩ := hst.listDeployments s gw.ObjectMeta.Namespace
    [(partOfLabel, gw.ObjectMeta.Name)]
  obtain ⟨l2, hl2, hperm2⟩ := hst.listServices s gw.ObjectMeta.Namespace
    [(partOfLabel, gw.ObjectMeta.Name)]
  have h1 : ∀ x ∈ l, classNameOf x.ObjectMeta ∈ cur := by
    intro x hx
    obtain ⟨hm, hch⟩ := (mem_memList _ _ _ _ _).1 (hperm.mem_iff.1 hx)
    have := hD x hm
    simpa [isRemoved, hch] using this
  have h2 : ∀ x ∈ l2, classNameOf x.ObjectMeta ∈ cur := by
    intro x hx
    obtain ⟨hm, hch⟩ := (mem_memList _ _ _ _ _).1 (hperm2.mem_iff.1 hx)
    have := hS x hm
    simpa [isRemoved, hch] using this
  unfold cleanupRemovedClasses
  rw [hl]
  simp only
  rw [deleteRemoved_noop _ _ _ l s h1]
  simp only
  rw [hl2]
  simp only
  exact deleteRemoved_noop _ _ _ l2 s h2

/-! ## One pass -/

theorem except_map_id {ε α : Type} (x : Except ε α) : x.map (fun a => a) = x := by
  cases x <;> rfl

/-- The map stores meet the store conditions, with the content as the state. -/
theorem memClientWith_conditions (nd : Store → Deployment → Deployment)
    (nv : Store → Service → Service) :
    StoreConditions (memClientWith nd nv) (fun s => s) nd nv where
  getGateway _ _ := rfl
  getDeployment _ _ := rfl
  getService _ _ := rfl
  listDeployments _ _ _ := ⟨_, rfl, List.Perm.refl _⟩
  listServices _ _ _ := ⟨_, rfl, List.Perm.refl _⟩
  createDeployment _ _ := except_map_id _
  updateDeployment _ _ := except_map_id _
  deleteDeployment _ _ := except_map_id _
  createService _ _ := except_map_id _
  updateService _ _ := except_map_id _
  deleteService _ _ := except_map_id _

theorem keepsMeta_id {α : Type} (metaOf : α → ObjectMeta) : KeepsMeta metaOf (fun x => x) :=
  fun _ => ⟨rfl, rfl⟩

theorem keepsDeploymentFields_stamp :
    KeepsDeploymentFields fun d => { d with ObjectMeta := stampMeta d.ObjectMeta } :=
  fun _ => ⟨rfl, rfl, rfl, rfl, rfl⟩

theorem keepsServiceFields_stamp :
    KeepsServiceFields fun v => { v with ObjectMeta := stampMeta v.ObjectMeta } :=
  fun _ => ⟨rfl, rfl, rfl, rfl, rfl⟩

theorem keepsDeploymentFields_id : KeepsDeploymentFields fun d => d :=
  fun _ => ⟨rfl, rfl, rfl, rfl, rfl⟩

theorem keepsServiceFields_id : KeepsServiceFields fun v => v :=
  fun _ => ⟨rfl, rfl, rfl, rfl, rfl⟩

theorem keepsMeta_withDefaults : KeepsMeta Deployment.ObjectMeta withDefaults :=
  fun _ => ⟨rfl, rfl⟩

theorem depStep_wf {gw : ObservabilityGateway} {cls : GatewayClass} {n : Deployment → Deployment}
    {s s1 : Store} {op : OperationResult} (h : DepStep gw cls n s op s1)
    (hn : KeepsMeta Deployment.ObjectMeta n) (hwf : s.WF) : s1.WF := by
  obtain ⟨hst, hsv, _⟩ := h
  refine ⟨hst.keys hn hwf.1, ?_⟩
  rw [hsv]; exact hwf.2

theorem svcStep_wf {gw : ObservabilityGateway} {cls : GatewayClass} {n : Service → Service}
    {s s1 : Store} {op : OperationResult} (h : SvcStep gw cls n s op s1)
    (hn : KeepsMeta Service.ObjectMeta n) (hwf : s.WF) : s1.WF := by
  obtain ⟨hst, hd, _⟩ := h
  refine ⟨?_, hst.keys hn hwf.2⟩
  rw [hd]; exact hwf.1

theorem depStep_passInv {gw : ObservabilityGateway} {cls : GatewayClass}
    {n : Deployment → Deployment} {s s1 : Store}
    {op : OperationResult} (h : DepStep gw cls n s op s1)
    (hn : KeepsMeta Deployment.ObjectMeta n)
    (hi : PassInv gw.ObjectMeta.Namespace gw.ObjectMeta.Name s) :
    PassInv gw.ObjectMeta.Namespace gw.ObjectMeta.Name s1 := by
  refine ⟨depStep_wf h hn hi.1, h.1.namedByClass (deploymentMutateFn_good gw cls) hn hi.2.1, ?_⟩
  rw [h.2.1]; exact hi.2.2

theorem svcStep_passInv {gw : ObservabilityGateway} {cls : GatewayClass}
    {n : Service → Service} {s s1 : Store}
    {op : OperationResult} (h : SvcStep gw cls n s op s1)
    (hn : KeepsMeta Service.ObjectMeta n)
    (hi : PassInv gw.ObjectMeta.Namespace gw.ObjectMeta.Name s) :
    PassInv gw.ObjectMeta.Namespace gw.ObjectMeta.Name s1 := by
  refine ⟨svcStep_wf h hn hi.1, ?_, h.1.namedByClass (serviceMutateFn_good gw cls) hn hi.2.2⟩
  rw [h.2.1]; exact hi.2.1

theorem pruned_wf (gw : ObservabilityGateway) (cur : List String) (s : Store) (hwf : s.WF) :
    (pruned gw cur s).WF :=
  ⟨List.Nodup.sublist ((List.filter_sublist _).map _) hwf.1,
    List.Nodup.sublist ((List.filter_sublist _).map _) hwf.2⟩

theorem pruned_passInv (gw : ObservabilityGateway) (cur : List String) (ns gwName : String)
    (s : Store) (hi : PassInv ns gwName s) : PassInv ns gwName (pruned gw cur s) := by
  obtain ⟨hwf, hd, hs⟩ := hi
  refine ⟨pruned_wf gw cur s hwf, ?_, ?_⟩
  · intro x hx; exact hd x (List.mem_of_mem_filter hx)
  · intro x hx; exact hs x (List.mem_of_mem_filter hx)

theorem memGet_gateway_key {gws : List ObservabilityGateway} {req : NamespacedName}
    {gw : ObservabilityGateway}
    (h : memGet ObservabilityGateway.ObjectMeta gws req = .ok gw) :
    gw ∈ gws ∧ gw.ObjectMeta.Namespace = req.Namespace ∧ gw.ObjectMeta.Name = req.Name := by
  unfold memGet at h
  cases hf : gws.find? (fun x => ObjectKeyFromObject x.ObjectMeta = req) with
  | none => rw [hf] at h; cases h
  | some g =>
    rw [hf] at h
    simp only [Except.ok.injEq] at h
    subst h
    obtain ⟨hm, hk⟩ := find?_key_some ObservabilityGateway.ObjectMeta gws req g hf
    exact ⟨hm, congrArg NamespacedName.Namespace hk, congrArg NamespacedName.Name hk⟩

theorem reconcileClasses_gateways {σ : Type} {r : Client σ} {view : σ → Store}
    {nd : Store → Deployment → Deployment} {nv : Store → Service → Service}
    (hst : StoreConditions r view nd nv) (hnd : ∀ m, KeepsMeta Deployment.ObjectMeta (nd m))
    (hnv : ∀ m, KeepsMeta Service.ObjectMeta (nv m))
    (gw : ObservabilityGateway) (classes : List GatewayClass)
    (names : List String) (log : List LogEntry) (s : σ) :
    (view (reconcileClasses r gw classes names log s).2.2.2).gateways = (view s).gateways :=
  reconcileClasses_preserves hst hnd hnv gw (fun t => t.gateways = (view s).gateways) classes
    (fun _ _ _ _ _ hp hstep => hstep.2.2.trans hp) (fun _ _ _ _ _ hp hstep => hstep.2.2.trans hp)
    names log s rfl

/-- The shape of a pass under the store conditions, on a content with unique keys whose
parent exists. -/
theorem Reconcile_view {σ : Type} {r : Client σ} {view : σ → Store}
    {nd : Store → Deployment → Deployment} {nv : Store → Service → Service}
    (hst : StoreConditions r view nd nv) (hnd : ∀ m, KeepsMeta Deployment.ObjectMeta (nd m))
    (hnv : ∀ m, KeepsMeta Service.ObjectMeta (nv m))
    (req : NamespacedName) (s : σ) (gw : ObservabilityGateway)
    (hget : r.GetGateway s req = .ok gw) (hwf : (view s).WF) :
    ∃ e names1 log1 s1,
      reconcileClasses r gw gw.Spec.Classes [] [] s = (e, names1, log1, s1) ∧
      (view s1).WF ∧ (view s1).gateways = (view s).gateways ∧
      ((∃ err, e = some err ∧
          Reconcile r req s = { err := some err, log := log1, store := s1 }) ∨
        (e = none ∧ ∃ s2,
          Reconcile r req s = { err := none, log := log1, store := s2 } ∧
          view s2 = pruned gw names1 (view s1))) := by
  cases hrc : reconcileClasses r gw gw.Spec.Classes [] [] s with
  | mk e rest1 =>
    obtain ⟨names1, log1, s1⟩ := rest1
    have hwf1 : (view s1).WF :=
      reconcileClasses_preserves_eq hst hnd hnv gw Store.WF gw.Spec.Classes
        (fun _ _ m _ _ hp hstep => depStep_wf hstep (hnd m) hp)
        (fun _ _ m _ _ hp hstep => svcStep_wf hstep (hnv m) hp) hrc hwf
    have hg1 : (view s1).gateways = (view s).gateways := by
      have := reconcileClasses_gateways hst hnd hnv gw gw.Spec.Classes [] [] s
      rw [hrc] at this; exact this
    refine ⟨e, names1, log1, s1, rfl, hwf1, hg1, ?_⟩
    cases e with
    | some err =>
      refine Or.inl ⟨err, rfl, ?_⟩
      unfold Reconcile
      rw [hget]
      simp only
      rw [hrc]
    | none =>
      obtain ⟨s2, hs2, hv2⟩ := cleanupRemovedClasses_view hst gw names1 s1 hwf1
      refine Or.inr ⟨rfl, s2, ?_, hv2⟩
      unfold Reconcile
      rw [hget]
      simp only
      rw [hrc]
      simp only
      rw [hs2]

/-! ## Convergence -/

theorem childLabels_of_key {gw : ObservabilityGateway} {c cls : GatewayClass}
    (h : childKey gw c = childKey gw cls) : childLabels gw c = childLabels gw cls := by
  have h1 := congrArg NamespacedName.Name h
  have h2 : c.Name = cls.Name := childName_inj_right h1
  simp [childLabels, h2]

theorem reconcileClasses_labelled {σ : Type} {r : Client σ} {view : σ → Store}
    {nd : Store → Deployment → Deployment} {nv : Store → Service → Service}
    (hst : StoreConditions r view nd nv) (hnd : ∀ m, KeepsMeta Deployment.ObjectMeta (nd m))
    (hnv : ∀ m, KeepsMeta Service.ObjectMeta (nv m))
    (gw : ObservabilityGateway)
    (classes : List GatewayClass) (names : List String) (log : List LogEntry) (s : σ)
    (names1 : List String) (log1 : List LogEntry) (s1 : σ)
    (h : reconcileClasses r gw classes names log s = (none, names1, log1, s1)) :
    ∀ c ∈ classes, BothLabelled gw c (view s1) := by
  refine reconcileClasses_establish hst hnd hnv gw (BothLabelled gw) (fun _ _ => True) ?_ ?_ ?_
    classes names log s names1 log1 s1 (List.pairwise_of_forall (fun _ _ => trivial)) h
  · intro cls m op1 ma op2 mb hd hs
    refine ⟨?_, hs.1.labelled (serviceMutateFn_good gw cls) (hnv ma)⟩
    rw [hs.2.1]
    exact hd.1.labelled (deploymentMutateFn_good gw cls) (hnd m)
  · intro c cls m op ma _ hq hd
    refine ⟨hd.1.keep_labelled (deploymentMutateFn_good gw cls) (hnd m) childLabels_of_key hq.1,
      ?_⟩
    rw [hd.2.1]; exact hq.2
  · intro c cls m op ma _ hq hs
    refine ⟨?_, hs.1.keep_labelled (serviceMutateFn_good gw cls) (hnv m) childLabels_of_key
      hq.2⟩
    rw [hs.2.1]; exact hq.1

theorem children_names {α : Type} (metaOf : α → ObjectMeta) (gw : ObservabilityGateway)
    (classes : List GatewayClass) (names1 : List String) (l : List α)
    (hnames : ∀ n, n ∈ names1 ↔ n ∈ classes.map fun c => c.Name)
    (hn : NamedByClass metaOf gw.ObjectMeta.Namespace gw.ObjectMeta.Name l)
    (hl : ∀ c ∈ classes, Labelled metaOf (childKey gw c) (childLabels gw c) l) (n : String) :
    n ∈ (memList metaOf
          (l.filter fun d =>
            !isRemoved gw.ObjectMeta.Namespace gw.ObjectMeta.Name names1 (metaOf d))
          gw.ObjectMeta.Namespace [(partOfLabel, gw.ObjectMeta.Name)]).map
          (fun d => (metaOf d).Name) ↔
      n ∈ classes.map fun c => childName gw.ObjectMeta.Name c.Name := by
  constructor
  · intro h
    obtain ⟨d, hd, hdn⟩ := List.mem_map.1 h
    rw [mem_memList, List.mem_filter] at hd
    obtain ⟨⟨hdl, hrem⟩, hch⟩ := hd
    have hcls : classNameOf (metaOf d) ∈ names1 := by
      simp only [isRemoved, hch, Bool.true_and, Bool.not_eq_true', decide_eq_false_iff_not,
        not_not] at hrem
      exact hrem
    obtain ⟨c, hc, hcn⟩ := List.mem_map.1 ((hnames _).1 hcls)
    refine List.mem_map.2 ⟨c, hc, ?_⟩
    rw [← hdn, hn d hdl hch, hcn]
  · intro h
    obtain ⟨c, hc, hcn⟩ := List.mem_map.1 h
    obtain ⟨d, hd, hk, hlab⟩ := hl c hc
    have hch : isChildOf gw.ObjectMeta.Namespace gw.ObjectMeta.Name (metaOf d) = true :=
      isChildOf_childLabels gw c _ hlab (congrArg NamespacedName.Namespace hk)
    have hcls : classNameOf (metaOf d) ∈ names1 := by
      rw [classNameOf_childLabels gw c _ hlab]
      exact (hnames _).2 (List.mem_map.2 ⟨c, hc, rfl⟩)
    refine List.mem_map.2 ⟨d, ?_, ?_⟩
    · rw [mem_memList, List.mem_filter]
      refine ⟨⟨hd, ?_⟩, hch⟩
      simp [isRemoved, hcls]
    · rw [← hcn]; exact congrArg NamespacedName.Name hk

theorem Reconcile_passInv {σ : Type} {r : Client σ} {view : σ → Store}
    {nd : Store → Deployment → Deployment} {nv : Store → Service → Service}
    (hst : StoreConditions r view nd nv) (hnd : ∀ m, KeepsMeta Deployment.ObjectMeta (nd m))
    (hnv : ∀ m, KeepsMeta Service.ObjectMeta (nv m))
    (req : NamespacedName) (s : σ)
    (hi : PassInv req.Namespace req.Name (view s)) :
    PassInv req.Namespace req.Name (view (Reconcile r req s).store) ∧
      (view (Reconcile r req s).store).gateways = (view s).gateways := by
  cases hget : r.GetGateway s req with
  | error e =>
    have : (Reconcile r req s).store = s := by
      unfold Reconcile; rw [hget]; by_cases hnf : IsNotFound e = true <;> simp [hnf]
    rw [this]; exact ⟨hi, rfl⟩
  | ok gw =>
    have hget1 := hget
    rw [hst.getGateway] at hget1
    obtain ⟨_, hns, hname⟩ := memGet_gateway_key hget1
    obtain ⟨e, names1, log1, s1, hrc, _, hg1, hres⟩ :=
      Reconcile_view hst hnd hnv req s gw hget hi.1
    have hi1 : PassInv gw.ObjectMeta.Namespace gw.ObjectMeta.Name (view s1) :=
      reconcileClasses_preserves_eq hst hnd hnv gw
        (PassInv gw.ObjectMeta.Namespace gw.ObjectMeta.Name)
        gw.Spec.Classes (fun _ _ m _ _ hp hstep => depStep_passInv hstep (hnd m) hp)
        (fun _ _ m _ _ hp hstep => svcStep_passInv hstep (hnv m) hp) hrc
        (by rw [hns, hname]; exact hi)
    rw [hns, hname] at hi1
    rcases hres with ⟨err, _, hr⟩ | ⟨_, s2, hr, hv2⟩
    · rw [hr]; exact ⟨hi1, hg1⟩
    · rw [hr]
      show PassInv _ _ (view s2) ∧ (view s2).gateways = _
      rw [hv2]
      exact ⟨pruned_passInv gw names1 _ _ _ hi1, hg1⟩

theorem memGet_editClasses {s : Store} {req : NamespacedName} {gw : ObservabilityGateway}
    (classes : List GatewayClass)
    (h : memGet ObservabilityGateway.ObjectMeta s.gateways req = .ok gw) :
    memGet ObservabilityGateway.ObjectMeta (editClasses s req classes).gateways req =
      .ok { gw with Spec := { gw.Spec with Classes := classes } } := by
  unfold memGet at h ⊢
  cases hf : s.gateways.find? (fun x => ObjectKeyFromObject x.ObjectMeta = req) with
  | none => rw [hf] at h; cases h
  | some g =>
    rw [hf] at h
    simp only [Except.ok.injEq] at h
    subst h
    have hk := (find?_key_some ObservabilityGateway.ObjectMeta s.gateways req g hf).2
    have hk1 : ObjectKeyFromObject g.ObjectMeta = req := hk
    simp only [editClasses, List.find?_map]
    have hcomp : ((fun x : ObservabilityGateway => decide (ObjectKeyFromObject x.ObjectMeta = req)) ∘
        fun g : ObservabilityGateway =>
          if ObjectKeyFromObject g.ObjectMeta = req then
            { g with Spec := { g.Spec with Classes := classes } }
          else g) = fun x => decide (ObjectKeyFromObject x.ObjectMeta = req) := by
      funext x
      by_cases hx : ObjectKeyFromObject x.ObjectMeta = req <;> simp [hx]
    rw [hcomp, hf]
    simp [hk1]

theorem getGateway_edit {σ : Type} {r : Client σ} {view : σ → Store}
    {nd : Store → Deployment → Deployment} {nv : Store → Service → Service}
    (hst : StoreConditions r view nd nv) {req : NamespacedName}
    {edit : List GatewayClass → σ → σ}
    (hedit : ∀ classes s, view (edit classes s) = editClasses (view s) req classes)
    {s : σ} {gw : ObservabilityGateway} (classes : List GatewayClass)
    (h : r.GetGateway s req = .ok gw) :
    r.GetGateway (edit classes s) req =
      .ok { gw with Spec := { gw.Spec with Classes := classes } } := by
  rw [hst.getGateway] at h ⊢
  rw [hedit]
  exact memGet_editClasses classes h

theorem getGateway_congr {σ : Type} {r : Client σ} {view : σ → Store}
    {nd : Store → Deployment → Deployment} {nv : Store → Service → Service}
    (hst : StoreConditions r view nd nv) {s t : σ}
    (h : (view t).gateways = (view s).gateways) (req : NamespacedName) :
    r.GetGateway t req = r.GetGateway s req := by
  rw [hst.getGateway, hst.getGateway, h]

theorem runEdits_passInv {σ : Type} {r : Client σ} {view : σ → Store}
    {nd : Store → Deployment → Deployment} {nv : Store → Service → Service}
    (hst : StoreConditions r view nd nv) (hnd : ∀ m, KeepsMeta Deployment.ObjectMeta (nd m))
    (hnv : ∀ m, KeepsMeta Service.ObjectMeta (nv m))
    (req : NamespacedName) (edit : List GatewayClass → σ → σ)
    (hedit : ∀ classes s, view (edit classes s) = editClasses (view s) req classes) :
    ∀ (edits : List (List GatewayClass)) (s : σ) (gw : ObservabilityGateway),
      PassInv req.Namespace req.Name (view s) → r.GetGateway s req = .ok gw →
      PassInv req.Namespace req.Name (view (runEdits r edit req edits s)) ∧
        ∃ gw1, r.GetGateway (runEdits r edit req edits s) req = .ok gw1 := by
  intro edits
  induction edits with
  | nil => intro s gw hi hg; exact ⟨hi, gw, hg⟩
  | cons classes rest ih =>
    intro s gw hi hg
    simp only [runEdits]
    have hi1 : PassInv req.Namespace req.Name (view (edit classes s)) := by
      rw [hedit]; exact hi
    have hg1 := getGateway_edit hst hedit classes hg
    obtain ⟨hi2, hgw2⟩ := Reconcile_passInv hst hnd hnv req _ hi1
    exact ih _ _ hi2 ((getGateway_congr hst hgw2 req).trans hg1)

theorem passInv_of_no_children (s0 : Store) (ns gwName : String) (hwf : s0.WF)
    (hnoD : deploymentNames s0 ns gwName = []) (hnoS : serviceNames s0 ns gwName = []) :
    PassInv ns gwName s0 := by
  refine ⟨hwf, ?_, ?_⟩
  · intro x hx hch
    have : x ∈ memList Deployment.ObjectMeta s0.deployments ns [(partOfLabel, gwName)] :=
      (mem_memList _ _ _ _ _).2 ⟨hx, hch⟩
    rw [List.map_eq_nil_iff.1 hnoD] at this
    cases this
  · intro x hx hch
    have : x ∈ memList Service.ObjectMeta s0.services ns [(partOfLabel, gwName)] :=
      (mem_memList _ _ _ _ _).2 ⟨hx, hch⟩
    rw [List.map_eq_nil_iff.1 hnoS] at this
    cases this

theorem childKey_ne {gw : ObservabilityGateway} {c cls : GatewayClass} (h : c.Name ≠ cls.Name) :
    childKey gw c ≠ childKey gw cls := by
  intro he
  exact h (childName_inj_right (congrArg NamespacedName.Name he))

theorem reconcileClasses_bothSynced {σ : Type} {r : Client σ} {view : σ → Store}
    {nd : Store → Deployment → Deployment} {nv : Store → Service → Service}
    (hst : StoreConditions r view nd nv)
    (hnd : ∀ m, KeepsDeploymentFields (nd m)) (hnv : ∀ m, KeepsServiceFields (nv m))
    (gw : ObservabilityGateway)
    (classes : List GatewayClass) (names : List String) (log : List LogEntry) (s : σ)
    (names1 : List String) (log1 : List LogEntry) (s1 : σ)
    (huniq : (classes.map fun c => c.Name).Nodup)
    (h : reconcileClasses r gw classes names log s = (none, names1, log1, s1)) :
    ∀ c ∈ classes, BothSynced gw c (view s1) := by
  refine reconcileClasses_establish hst (fun m => keepsMeta_of_deploymentFields (hnd m))
    (fun m => keepsMeta_of_serviceFields (hnv m)) gw
    (BothSynced gw) (fun c cls => c.Name ≠ cls.Name)
    ?_ ?_ ?_ classes names log s names1 log1 s1 (List.pairwise_map.1 huniq) h
  · intro cls m op1 ma op2 mb hd hs
    refine ⟨?_, hs.1.synced (keepsMeta_of_serviceFields (hnv ma))
      (serviceMutateFn_settles (hnv ma) gw cls)⟩
    rw [hs.2.1]
    exact hd.1.synced (keepsMeta_of_deploymentFields (hnd m))
      (deploymentMutateFn_settles (hnd m) gw cls)
  · intro c cls m op ma hne hq hd
    refine ⟨hd.1.keep_synced (childKey_ne hne) hq.1, ?_⟩
    rw [hd.2.1]; exact hq.2
  · intro c cls m op ma hne hq hs
    refine ⟨?_, hs.1.keep_synced (childKey_ne hne) hq.2⟩
    rw [hs.2.1]; exact hq.1

theorem Synced.filter_kept {α : Type} {metaOf : α → ObjectMeta} {gw : ObservabilityGateway}
    {c : GatewayClass} {f : α → Except Err α} {l : List α} {names1 : List String}
    (h : Synced metaOf (childKey gw c) f l) (hg : GoodMutate metaOf f (childLabels gw c))
    (hc : c.Name ∈ names1) :
    Synced metaOf (childKey gw c) f
      (l.filter fun d =>
        !isRemoved gw.ObjectMeta.Namespace gw.ObjectMeta.Name names1 (metaOf d)) := by
  obtain ⟨d, hd, hk, hf⟩ := h
  refine ⟨d, ?_, hk, hf⟩
  rw [List.mem_filter]
  refine ⟨hd, ?_⟩
  have hcls : classNameOf (metaOf d) ∈ names1 := by
    rw [classNameOf_childLabels gw c _ (hg.labels d d hf)]; exact hc
  simp [isRemoved, hcls]

/-- What a successful pass leaves, in a store that keeps the assigned fields, for a parent
with pairwise distinct class names: unique keys, both children of every class stored and left
alone by the mutate functions, no removed child, and the parents as they were. -/
theorem first_pass {σ : Type} {r : Client σ} {view : σ → Store}
    {nd : Store → Deployment → Deployment} {nv : Store → Service → Service}
    (hst : StoreConditions r view nd nv)
    (hnd : ∀ m, KeepsDeploymentFields (nd m)) (hnv : ∀ m, KeepsServiceFields (nv m))
    (s : σ) (req : NamespacedName) (gw : ObservabilityGateway)
    (hwf : (view s).WF) (hget : r.GetGateway s req = .ok gw)
    (huniq : (gw.Spec.Classes.map fun c => c.Name).Nodup)
    (hok : (Reconcile r req s).err = none) :
    (view (Reconcile r req s).store).WF ∧
    (view (Reconcile r req s).store).gateways = (view s).gateways ∧
    (∀ c ∈ gw.Spec.Classes, BothSynced gw c (view (Reconcile r req s).store)) ∧
    (∀ d ∈ (view (Reconcile r req s).store).deployments,
      isRemoved gw.ObjectMeta.Namespace gw.ObjectMeta.Name
        ((gw.Spec.Classes.map fun c => c.Name).reverse ++ []) d.ObjectMeta = false) ∧
    (∀ v ∈ (view (Reconcile r req s).store).services,
      isRemoved gw.ObjectMeta.Namespace gw.ObjectMeta.Name
        ((gw.Spec.Classes.map fun c => c.Name).reverse ++ []) v.ObjectMeta = false) := by
  obtain ⟨e, names1, log1, s1, hrc, hwf1, hg1, hres⟩ :=
    Reconcile_view hst (fun m => keepsMeta_of_deploymentFields (hnd m))
      (fun m => keepsMeta_of_serviceFields (hnv m)) req s gw hget hwf
  rcases hres with ⟨err, _, hr⟩ | ⟨he, s2, hr, hv2⟩
  · rw [hr] at hok; cases hok
  · subst he
    have hnames := reconcileClasses_names r _ _ _ _ _ _ _ _ hrc
    have hsync := reconcileClasses_bothSynced hst hnd hnv gw _ _ _ _ _ _ _ huniq hrc
    rw [hr]
    show (view s2).WF ∧ (view s2).gateways = _ ∧ (∀ c ∈ _, BothSynced gw c (view s2)) ∧
      (∀ d ∈ (view s2).deployments, _) ∧ (∀ v ∈ (view s2).services, _)
    rw [hv2, ← hnames]
    refine ⟨pruned_wf gw names1 _ hwf1, hg1, ?_, ?_, ?_⟩
    · intro c hc
      have hcn : c.Name ∈ names1 := by
        rw [hnames]; simp only [List.append_nil, List.mem_reverse]
        exact List.mem_map.2 ⟨c, hc, rfl⟩
      exact ⟨(hsync c hc).1.filter_kept (deploymentMutateFn_good gw c) hcn,
        (hsync c hc).2.filter_kept (serviceMutateFn_good gw c) hcn⟩
    · intro d hd
      have := (List.mem_filter.1 hd).2
      simpa using this
    · intro v hv
      have := (List.mem_filter.1 hv).2
      simpa using this

/-- A pass over a state where both children of every class are stored and left alone by the
mutate functions and no child is removed: every outcome is `unchanged` and the state is handed
back. -/
theorem settled_pass {σ : Type} {r : Client σ} {view : σ → Store}
    {nd : Store → Deployment → Deployment} {nv : Store → Service → Service}
    (hst : StoreConditions r view nd nv)
    (s : σ) (req : NamespacedName) (gw : ObservabilityGateway)
    (hwf : (view s).WF) (hget : r.GetGateway s req = .ok gw)
    (hsync : ∀ c ∈ gw.Spec.Classes, BothSynced gw c (view s))
    (hD : ∀ d ∈ (view s).deployments,
      isRemoved gw.ObjectMeta.Namespace gw.ObjectMeta.Name
        ((gw.Spec.Classes.map fun c => c.Name).reverse ++ []) d.ObjectMeta = false)
    (hS : ∀ v ∈ (view s).services,
      isRemoved gw.ObjectMeta.Namespace gw.ObjectMeta.Name
        ((gw.Spec.Classes.map fun c => c.Name).reverse ++ []) v.ObjectMeta = false) :
    Reconcile r req s =
      { err := none, log := gw.Spec.Classes.flatMap (unchangedLog gw), store := s } := by
  unfold Reconcile
  rw [hget]
  simp only
  rw [reconcileClasses_synced hst gw s hwf _ _ _ hsync]
  simp only
  rw [cleanupRemovedClasses_noop hst gw _ s hD hS]
  simp

theorem isRemoved_eq_false_iff (ns gwName : String) (cur : List String) (m : ObjectMeta) :
    (!isRemoved ns gwName cur m) = true ↔
      ¬ (m.Namespace = ns ∧ m.Labels.lookup partOfLabel = some gwName ∧
          classNameOf m ∉ cur) := by
  simp only [isRemoved, Bool.not_eq_true', Bool.and_eq_false_iff, decide_eq_false_iff_not]
  rw [← Bool.not_eq_true, isChildOf_iff]
  tauto

theorem memGet_of_mem {α : Type} (metaOf : α → ObjectMeta) (l : List α)
    (hnd : (l.map fun y => ObjectKeyFromObject (metaOf y)).Nodup) (d : α) (hd : d ∈ l) :
    memGet metaOf l (keyOf metaOf d) = .ok d := by
  unfold memGet
  rw [find?_key_of_nodup metaOf l hnd d hd]

theorem memGet_filter_in {α : Type} (metaOf : α → ObjectMeta) (l : List α) (p : α → Bool)
    (hnd : (l.map fun y => ObjectKeyFromObject (metaOf y)).Nodup) (d : α) (hd : d ∈ l)
    (hp : p d = true) : memGet metaOf (l.filter p) (keyOf metaOf d) = .ok d :=
  memGet_of_mem metaOf _ (List.Nodup.sublist ((List.filter_sublist _).map _) hnd) d
    (List.mem_filter.2 ⟨hd, hp⟩)

theorem memGet_filter_out {α : Type} (metaOf : α → ObjectMeta) (l : List α) (p : α → Bool)
    (hnd : (l.map fun y => ObjectKeyFromObject (metaOf y)).Nodup) (d : α) (hd : d ∈ l)
    (hp : p d = false) : memGet metaOf (l.filter p) (keyOf metaOf d) = .error .notFound := by
  unfold memGet
  have : (l.filter p).find? (fun x => ObjectKeyFromObject (metaOf x) = keyOf metaOf d)
      = none := by
    rw [List.find?_eq_none]
    intro y hy hk
    obtain ⟨hyl, hpy⟩ := List.mem_filter.1 hy
    have hk1 : keyOf metaOf y = keyOf metaOf d := by simpa [keyOf] using hk
    have := eq_of_key_eq_of_nodup metaOf l hnd y d hyl hd hk1
    rw [this, hp] at hpy
    cases hpy
  rw [this]

theorem deploymentMutateFn_classes (gw : ObservabilityGateway) (classes : List GatewayClass)
    (cls : GatewayClass) :
    deploymentMutateFn { gw with Spec := { gw.Spec with Classes := classes } } cls
      = deploymentMutateFn gw cls := rfl

theorem serviceMutateFn_classes (gw : ObservabilityGateway) (classes : List GatewayClass)
    (cls : GatewayClass) :
    serviceMutateFn { gw with Spec := { gw.Spec with Classes := classes } } cls
      = serviceMutateFn gw cls := rfl

theorem Reconcile_ok_of {σ : Type} {r : Client σ} {req : NamespacedName} {s s1 s2 : σ}
    {gw : ObservabilityGateway} {names : List String} {log : List LogEntry}
    (hget : r.GetGateway s req = .ok gw)
    (hrc : reconcileClasses r gw gw.Spec.Classes [] [] s = (none, names, log, s1))
    (hcl : cleanupRemovedClasses r gw names s1 = (none, s2)) :
    Reconcile r req s = { err := none, log := log, store := s2 } := by
  unfold Reconcile
  rw [hget]
  simp only
  rw [hrc]
  simp only
  rw [hcl]

/-- The pass after the class list `[A, B]` was synced and the spec became `[B]`, in a store
that keeps the assigned fields. -/
theorem pass_after_removal {σ : Type} {r : Client σ} {view : σ → Store}
    {nd : Store → Deployment → Deployment} {nv : Store → Service → Service}
    (hst : StoreConditions r view nd nv)
    (hnd : ∀ m, KeepsDeploymentFields (nd m)) (hnv : ∀ m, KeepsServiceFields (nv m))
    (req : NamespacedName) (edit : List GatewayClass → σ → σ)
    (hedit : ∀ classes s, view (edit classes s) = editClasses (view s) req classes)
    (s : σ) (gw : ObservabilityGateway) (A B : GatewayClass)
    (hwf : (view s).WF) (hget : r.GetGateway s req = .ok gw)
    (hcls : gw.Spec.Classes = [A, B]) (hne : A.Name ≠ B.Name)
    (hok : (Reconcile r req s).err = none) :
    ∃ s3 dA vA dB vB,
      Reconcile r req (edit [B] (Reconcile r req s).store)
        = { err := none, log := unchangedLog gw B, store := s3 } ∧
      view s3 = pruned gw [B.Name] (editClasses (view (Reconcile r req s).store) req [B]) ∧
      (view (Reconcile r req s).store).WF ∧
      dA ∈ (view (Reconcile r req s).store).deployments ∧
      keyOf Deployment.ObjectMeta dA = childKey gw A ∧
      dA.ObjectMeta.Labels = childLabels gw A ∧
      vA ∈ (view (Reconcile r req s).store).services ∧
      keyOf Service.ObjectMeta vA = childKey gw A ∧
      vA.ObjectMeta.Labels = childLabels gw A ∧
      dB ∈ (view (Reconcile r req s).store).deployments ∧
      keyOf Deployment.ObjectMeta dB = childKey gw B ∧
      dB.ObjectMeta.Labels = childLabels gw B ∧
      vB ∈ (view (Reconcile r req s).store).services ∧
      keyOf Service.ObjectMeta vB = childKey gw B ∧
      vB.ObjectMeta.Labels = childLabels gw B := by
  have huniq : (gw.Spec.Classes.map fun c => c.Name).Nodup := by
    rw [hcls]; simp [hne]
  obtain ⟨hwf1, hg1, hsync, _, _⟩ := first_pass hst hnd hnv s req gw hwf hget huniq hok
  have hA := hsync A (by rw [hcls]; simp)
  have hB := hsync B (by rw [hcls]; simp)
  have hget1 : r.GetGateway (Reconcile r req s).store req = .ok gw :=
    (getGateway_congr hst hg1 req).trans hget
  have hget2 := getGateway_edit hst hedit [B] hget1
  have hve : view (edit [B] (Reconcile r req s).store)
      = editClasses (view (Reconcile r req s).store) req [B] := hedit _ _
  have hwf2 : (view (edit [B] (Reconcile r req s).store)).WF := by rw [hve]; exact hwf1
  have hB2 : ∀ c ∈ [B], BothSynced { gw with Spec := { gw.Spec with Classes := [B] } } c
      (view (edit [B] (Reconcile r req s).store)) := by
    intro c hc
    simp only [List.mem_singleton] at hc
    subst hc
    rw [hve]
    exact hB
  obtain ⟨s3, hs3, hv3⟩ := cleanupRemovedClasses_view hst
    { gw with Spec := { gw.Spec with Classes := [B] } } [B.Name]
    (edit [B] (Reconcile r req s).store) hwf2
  obtain ⟨dA, hdA, hkA, hfA⟩ := hA.1
  obtain ⟨vA, hvA, hkvA, hfvA⟩ := hA.2
  obtain ⟨dB, hdB, hkB, hfB⟩ := hB.1
  obtain ⟨vB, hvB, hkvB, hfvB⟩ := hB.2
  refine ⟨s3, dA, vA, dB, vB, ?_, ?_, hwf1, hdA, hkA,
    (deploymentMutateFn_good gw A).labels _ _ hfA, hvA, hkvA,
    (serviceMutateFn_good gw A).labels _ _ hfvA, hdB, hkB,
    (deploymentMutateFn_good gw B).labels _ _ hfB, hvB, hkvB,
    (serviceMutateFn_good gw B).labels _ _ hfvB⟩
  · have hrc := reconcileClasses_synced hst
      { gw with Spec := { gw.Spec with Classes := [B] } }
      (edit [B] (Reconcile r req s).store) hwf2 [B] [] [] hB2
    have hlog : ([] : List LogEntry) ++
        [B].flatMap (unchangedLog { gw with Spec := { gw.Spec with Classes := [B] } })
        = unchangedLog gw B := by
      simp [unchangedLog]
    rw [hlog] at hrc
    exact Reconcile_ok_of hget2 hrc hs3
  · rw [hv3, hve]
    rfl

/-- C4 (argument ordering).  Whenever the mutate closure of `reconcileDeployment` succeeds, the
Deployment it leaves has one container whose arguments are the fixed config flag, then the
parent's extra arguments, then the class's extra arguments; with parent arguments `["--x"]`
and class arguments `["--y"]` that is `["--config=/etc/otel/config.yaml", "--x", "--y"]`. -/
theorem argument_ordering (gw : ObservabilityGateway) (cls : GatewayClass)
    (dep dep1 : Deployment) (h : deploymentMutateFn gw cls dep = .ok dep1) :
    (dep1.Spec.Template.Spec.Containers.map fun c => c.Args)
        = [["--config=/etc/otel/config.yaml"] ++ gw.Spec.ExtraArgs ++ cls.ExtraArgs] ∧
      (gw.Spec.ExtraArgs = ["--x"] → cls.ExtraArgs = ["--y"] →
        (dep1.Spec.Template.Spec.Containers.map fun c => c.Args)
          = [["--config=/etc/otel/config.yaml", "--x", "--y"]]) := by
  rw [deploymentMutateFn_ok h]
  refine ⟨rfl, ?_⟩
  intro hx hy
  simp [deploymentSpecOf, hx, hy]

theorem argument_ordering_witness :
    deploymentMutateFn exampleGateway classA
        { ObjectMeta := { Name := "gw-a", Namespace := "ns" } }
      = .ok { ObjectMeta :=
                { Name := "gw-a", Namespace := "ns"
                  Labels := childLabels exampleGateway classA
                  OwnerReferences := [controllerRef exampleGateway] }
              Spec := deploymentSpecOf exampleGateway classA "gw-a" } ∧
    ((deploymentSpecOf exampleGateway classA "gw-a").Template.Spec.Containers.map
        fun c => c.Args)
      = [["--config=/etc/otel/config.yaml", "--x", "--y"]] :=
  ⟨rfl,
    (argument_ordering exampleGateway classA
      { ObjectMeta := { Name := "gw-a", Namespace := "ns" } }
      { ObjectMeta :=
          { Name := "gw-a", Namespace := "ns"
            Labels := childLabels exampleGateway classA
            OwnerReferences := [controllerRef exampleGateway] }
        Spec := deploymentSpecOf exampleGateway classA "gw-a" } rfl).2 rfl rfl⟩

/-- C5 (port defaulting).  Whenever the two mutate closures succeed for a class: if the class
declares no port, the Deployment's container has exactly the ports otlp-grpc/4317/TCP,
otlp-http/4318/TCP, metrics/8888/TCP and the Service has exactly three ports with those names,
numbers and protocol; if the class declares ports, the container has exactly the declared
ports and the Service one port per declared port, so no default port is added. -/
theorem port_defaulting (gw : ObservabilityGateway) (cls : GatewayClass)
    (dep dep1 : Deployment) (svc svc1 : Service)
    (hd : deploymentMutateFn gw cls dep = .ok dep1)
    (hs : serviceMutateFn gw cls svc = .ok svc1) :
    (cls.Ports = [] →
      (dep1.Spec.Template.Spec.Containers.map fun c => c.Ports)
        = [[ { Name := "otlp-grpc", ContainerPort := 4317, Protocol := "TCP" },
             { Name := "otlp-http", ContainerPort := 4318, Protocol := "TCP" },
             { Name := "metrics", ContainerPort := 8888, Protocol := "TCP" } ]] ∧
      svc1.Spec.Ports
        = [ { Name := "otlp-grpc", Port := 4317, Protocol := "TCP", TargetPort := .int 4317 },
            { Name := "otlp-http", Port := 4318, Protocol := "TCP", TargetPort := .int 4318 },
            { Name := "metrics", Port := 8888, Protocol := "TCP", TargetPort := .int 8888 } ]) ∧
    (cls.Ports ≠ [] →
      (dep1.Spec.Template.Spec.Containers.map fun c => c.Ports) = [cls.Ports] ∧
      svc1.Spec.Ports = cls.Ports.map servicePortOf) := by
  rw [deploymentMutateFn_ok hd, serviceMutateFn_ok hs]
  constructor
  · intro h0
    simp [deploymentSpecOf, serviceSpecOf, h0, defaultPorts, servicePortOf, ProtocolTCP, FromInt]
  · intro h0
    have hl : cls.Ports.length ≠ 0 := fun h => h0 (List.length_eq_zero.1 h)
    simp [deploymentSpecOf, serviceSpecOf, hl]

theorem port_defaulting_witness :
    classB.Ports = [] ∧
    (serviceSpecOf classB "gw-b").Ports.map (fun p => (p.Name, p.Port, p.Protocol))
      = [("otlp-grpc", 4317, "TCP"), ("otlp-http", 4318, "TCP"), ("metrics", 8888, "TCP")] :=
  ⟨rfl, congrArg (List.map fun p => (p.Name, p.Port, p.Protocol))
    ((port_defaulting exampleGateway classB
      { ObjectMeta := { Name := "gw-b", Namespace := "ns" } } _
      { ObjectMeta := { Name := "gw-b", Namespace := "ns" } }
      { ObjectMeta :=
          { Name := "gw-b", Namespace := "ns"
            Labels := childLabels exampleGateway classB
            OwnerReferences := [controllerRef exampleGateway] }
        Spec := serviceSpecOf classB "gw-b" } rfl rfl).1 rfl).2⟩

/-- C6 (selector coupling).  `CreateOrUpdate` runs the mutate closures on an object named
`parentName-className`.  Whenever they succeed on such objects, the Deployment's selector
match-labels, its pod-template labels and the Service's selector are all
`app: parentName-className`; hence for any other parent and class with the same parent name and
class name (whatever their replica counts and other fields) the three values are the same. -/
theorem selector_coupling (gw : ObservabilityGateway) (cls : GatewayClass)
    (dep dep1 : Deployment) (svc svc1 : Service)
    (hdn : dep.ObjectMeta.Name = childName gw.ObjectMeta.Name cls.Name)
    (hsn : svc.ObjectMeta.Name = childName gw.ObjectMeta.Name cls.Name)
    (hd : deploymentMutateFn gw cls dep = .ok dep1)
    (hs : serviceMutateFn gw cls svc = .ok svc1) :
    (dep1.Spec.Selector
        = some { MatchLabels := [("app", childName gw.ObjectMeta.Name cls.Name)],
                 MatchExpressions := [] } ∧
      dep1.Spec.Template.ObjectMeta.Labels = [("app", childName gw.ObjectMeta.Name cls.Name)] ∧
      svc1.Spec.Selector = [("app", childName gw.ObjectMeta.Name cls.Name)]) ∧
    (∀ (gw2 : ObservabilityGateway) (cls2 : GatewayClass) (dep2 dep3 : Deployment)
        (svc2 svc3 : Service),
      gw2.ObjectMeta.Name = gw.ObjectMeta.Name → cls2.Name = cls.Name →
      dep2.ObjectMeta.Name = childName gw2.ObjectMeta.Name cls2.Name →
      svc2.ObjectMeta.Name = childName gw2.ObjectMeta.Name cls2.Name →
      deploymentMutateFn gw2 cls2 dep2 = .ok dep3 →
      serviceMutateFn gw2 cls2 svc2 = .ok svc3 →
      dep3.Spec.Selector = dep1.Spec.Selector ∧
        dep3.Spec.Template.ObjectMeta.Labels = dep1.Spec.Template.ObjectMeta.Labels ∧
        svc3.Spec.Selector = svc1.Spec.Selector) := by
  rw [deploymentMutateFn_ok hd, serviceMutateFn_ok hs]
  refine ⟨⟨by simp [deploymentSpecOf, hdn], by simp [deploymentSpecOf, hdn],
    by simp [serviceSpecOf, hsn]⟩, ?_⟩
  intro gw2 cls2 dep2 dep3 svc2 svc3 hg hc hdn2 hsn2 hd2 hs2
  rw [deploymentMutateFn_ok hd2, serviceMutateFn_ok hs2]
  simp [deploymentSpecOf, serviceSpecOf, hdn, hsn, hdn2, hsn2, hg, hc]

theorem selector_coupling_witness :
    (deploymentSpecOf exampleGateway classA "gw-a").Selector
        = some { MatchLabels := [("app", "gw-a")], MatchExpressions := [] } ∧
      (deploymentSpecOf exampleGateway classA "gw-a").Template.ObjectMeta.Labels
        = [("app", "gw-a")] ∧
      (serviceSpecOf classA "gw-a").Selector = [("app", "gw-a")] :=
  (selector_coupling exampleGateway classA
    { ObjectMeta := { Name := "gw-a", Namespace := "ns" } }
    { ObjectMeta :=
        { Name := "gw-a", Namespace := "ns"
          Labels := childLabels exampleGateway classA
          OwnerReferences := [controllerRef exampleGateway] }
      Spec := deploymentSpecOf exampleGateway classA "gw-a" }
    { ObjectMeta := { Name := "gw-a", Namespace := "ns" } }
    { ObjectMeta :=
        { Name := "gw-a", Namespace := "ns"
          Labels := childLabels exampleGateway classA
          OwnerReferences := [controllerRef exampleGateway] }
      Spec := serviceSpecOf classA "gw-a" }
    (by decide) (by decide) rfl rfl).1

/-- C7 (Service ports mirror Deployment ports).  Whenever the two mutate closures succeed for
a class, the Deployment has one container, and the Service's port list is that container's
port list mapped entry by entry: same length, and the entry at each index has the name and
protocol of the container port at that index, its number as port, and the numeric target port
of the same number. -/
theorem service_ports_mirror (gw : ObservabilityGateway) (cls : GatewayClass)
    (dep dep1 : Deployment) (svc svc1 : Service)
    (hd : deploymentMutateFn gw cls dep = .ok dep1)
    (hs : serviceMutateFn gw cls svc = .ok svc1) :
    ∃ c, dep1.Spec.Template.Spec.Containers = [c] ∧
      svc1.Spec.Ports.length = c.Ports.length ∧
      ∀ (i : Nat) (p : ContainerPort), c.Ports[i]? = some p →
        svc1.Spec.Ports[i]? = some
          { Name := p.Name, Protocol := p.Protocol, AppProtocol := none,
            Port := p.ContainerPort, TargetPort := .int p.ContainerPort, NodePort := 0 } := by
  rw [deploymentMutateFn_ok hd, serviceMutateFn_ok hs]
  refine ⟨_, rfl, ?_, ?_⟩
  · simp [serviceSpecOf]
  · intro i p hp
    simp only [serviceSpecOf, List.getElem?_map]
    simp only at hp
    rw [hp]
    rfl

theorem service_ports_mirror_witness :
    ∃ c, (deploymentSpecOf exampleGateway classB "gw-b").Template.Spec.Containers = [c] ∧
      (serviceSpecOf classB "gw-b").Ports.length = c.Ports.length ∧
      ∀ (i : Nat) (p : ContainerPort), c.Ports[i]? = some p →
        (serviceSpecOf classB "gw-b").Ports[i]? = some
          { Name := p.Name, Protocol := p.Protocol, AppProtocol := none,
            Port := p.ContainerPort, TargetPort := .int p.ContainerPort, NodePort := 0 } :=
  service_ports_mirror exampleGateway classB
    { ObjectMeta := { Name := "gw-b", Namespace := "ns" } }
    { ObjectMeta :=
        { Name := "gw-b", Namespace := "ns"
          Labels := childLabels exampleGateway classB
          OwnerReferences := [controllerRef exampleGateway] }
      Spec := deploymentSpecOf exampleGateway classB "gw-b" }
    { ObjectMeta := { Name := "gw-b", Namespace := "ns" } }
    { ObjectMeta :=
        { Name := "gw-b", Namespace := "ns"
          Labels := childLabels exampleGateway classB
          OwnerReferences := [controllerRef exampleGateway] }
      Spec := serviceSpecOf classB "gw-b" } rfl rfl

/-! ## Merge or overwrite -/

/-- C9 as stated fails: on `handEditedDeployment` the mutate closure succeeds, and afterwards
the label `team` is gone and the spec fields `Strategy`, `MinReadySeconds`,
`RevisionHistoryLimit` and `Paused`, which the closure does not set, are back at their zero
values. -/
theorem merge_fails_for_labels_and_spec :
    ∃ dep1, deploymentMutateFn exampleGateway classA handEditedDeployment = .ok dep1 ∧
      handEditedDeployment.ObjectMeta.Labels.lookup "team" = some "telemetry" ∧
      dep1.ObjectMeta.Labels.lookup "team" = none ∧
      handEditedDeployment.Spec.Paused = true ∧ dep1.Spec.Paused = false ∧
      handEditedDeployment.Spec.Strategy = "Recreate" ∧ dep1.Spec.Strategy = "" ∧
      handEditedDeployment.Spec.RevisionHistoryLimit = some 5 ∧
      dep1.Spec.RevisionHistoryLimit = none ∧
      handEditedDeployment.Spec.MinReadySeconds = 10 ∧ dep1.Spec.MinReadySeconds = 0 :=
  ⟨_, rfl, by decide, by decide, by decide, by decide, by decide, by decide, by decide,
    by decide, by decide, by decide⟩

/-- C9, amended.  Whenever the mutate closure of `reconcileDeployment` succeeds on a fetched
Deployment, it keeps the status and every metadata field other than the labels and the owner
references (name, namespace, UID, resource version, annotations, finalizers) and every owner
reference that does not refer to the parent; it replaces the whole label map by the two
labels part-of and observability-class, and the whole spec by a value computed from the
parent, the class and the object name alone, so no former label and no former spec field
survives. -/
theorem merge_keeps_metadata_and_status (gw : ObservabilityGateway) (cls : GatewayClass)
    (dep dep1 : Deployment) (h : deploymentMutateFn gw cls dep = .ok dep1) :
    dep1.Status = dep.Status ∧
    dep1.ObjectMeta.Name = dep.ObjectMeta.Name ∧
    dep1.ObjectMeta.Namespace = dep.ObjectMeta.Namespace ∧
    dep1.ObjectMeta.UID = dep.ObjectMeta.UID ∧
    dep1.ObjectMeta.ResourceVersion = dep.ObjectMeta.ResourceVersion ∧
    dep1.ObjectMeta.Annotations = dep.ObjectMeta.Annotations ∧
    dep1.ObjectMeta.Finalizers = dep.ObjectMeta.Finalizers ∧
    (∀ r ∈ dep.ObjectMeta.OwnerReferences, referSameObject r (controllerRef gw) = false →
      r ∈ dep1.ObjectMeta.OwnerReferences) ∧
    dep1.ObjectMeta.Labels
      = [("app.kubernetes.io/part-of", gw.ObjectMeta.Name), ("observability-class", cls.Name)] ∧
    (∀ (other other1 : Deployment), other.ObjectMeta.Name = dep.ObjectMeta.Name →
      deploymentMutateFn gw cls other = .ok other1 → other1.Spec = dep1.Spec) := by
  have hd := deploymentMutateFn_ok h
  subst hd
  refine ⟨rfl, rfl, rfl, rfl, rfl, rfl, rfl, ?_, rfl, ?_⟩
  · intro r hr hne
    exact mem_upsertOwnerRef_of_mem _ r _ hr hne
  · intro other other1 hn ho
    rw [deploymentMutateFn_ok ho]
    simp only [hn]

theorem merge_keeps_metadata_and_status_witness :
    ∃ dep1, deploymentMutateFn exampleGateway classA handEditedDeployment = .ok dep1 ∧
      dep1.Status = handEditedDeployment.Status ∧
      dep1.ObjectMeta.Annotations = handEditedDeployment.ObjectMeta.Annotations :=
  ⟨_, rfl,
    (merge_keeps_metadata_and_status exampleGateway classA handEditedDeployment _ rfl).1,
    (merge_keeps_metadata_and_status exampleGateway classA handEditedDeployment _ rfl).2.2.2.2.2.1⟩

/-! ## Delete errors -/

/-- C8 as stated fails: when the list answer still shows the Deployment `gw-a` of the removed
class `a` and the store answers its delete with NotFound, `cleanupRemovedClasses` returns
NotFound, and so does `Reconcile`. -/
theorem delete_not_found_is_returned :
    (cleanupRemovedClasses (cachedListClient cachedStoreAB) gatewayAB ["b"] liveStoreB).1
      = some .notFound ∧
    (Reconcile (cachedListClient cachedStoreAB) exampleReq liveStoreB).err = some .notFound := by
  decide

theorem deleteRemoved_after {σ α : Type} (delete : σ → α → Except Err σ)
    (metaOf : α → ObjectMeta) (cur : List String) (pre post : List α) (s t : σ)
    (h : DeletedInTurn delete metaOf cur pre s t) :
    deleteRemoved delete metaOf cur (pre ++ post) s = deleteRemoved delete metaOf cur post t := by
  induction h with
  | done s => rfl
  | pass obj rest s t hc _ ih =>
    simp only [List.cons_append, deleteRemoved, hc, not_true_eq_false, if_false]
    exact ih
  | delete obj rest s s1 t hc hd _ ih =>
    simp only [List.cons_append, deleteRemoved, hc, not_false_eq_true, if_true, hd]
    exact ih

/-- C8, amended.  For every client, once the class loop of a pass has succeeded: whichever
removed Deployment of the list answer it is whose delete the store answers with an error,
NotFound included, after the removed Deployments before it were deleted in turn,
`cleanupRemovedClasses` stops at that child, attempts no further delete and returns that
error, and `Reconcile` returns it too, with the state the successful deletes left.  The same
holds for every removed Service once the Deployment loop is through. -/
theorem delete_error_aborts {σ : Type} (r : Client σ) (req : NamespacedName)
    (gw : ObservabilityGateway) (s s1 : σ) (cur : List String) (log : List LogEntry)
    (e : Err)
    (hget : r.GetGateway s req = .ok gw)
    (hcls : reconcileClasses r gw gw.Spec.Classes [] [] s = (none, cur, log, s1)) :
    (∀ (pre rest : List Deployment) (obj : Deployment) (t : σ),
      r.ListDeployments s1 gw.ObjectMeta.Namespace [(partOfLabel, gw.ObjectMeta.Name)]
        = .ok (pre ++ obj :: rest) →
      DeletedInTurn r.DeleteDeployment Deployment.ObjectMeta cur pre s1 t →
      classNameOf obj.ObjectMeta ∉ cur →
      r.DeleteDeployment t obj = .error e →
      cleanupRemovedClasses r gw cur s1 = (some e, t) ∧
        Reconcile r req s = { err := some e, log := log, store := t }) ∧
    (∀ (deployList : List Deployment) (s2 : σ) (pre rest : List Service) (obj : Service)
        (t : σ),
      r.ListDeployments s1 gw.ObjectMeta.Namespace [(partOfLabel, gw.ObjectMeta.Name)]
        = .ok deployList →
      DeletedInTurn r.DeleteDeployment Deployment.ObjectMeta cur deployList s1 s2 →
      r.ListServices s2 gw.ObjectMeta.Namespace [(partOfLabel, gw.ObjectMeta.Name)]
        = .ok (pre ++ obj :: rest) →
      DeletedInTurn r.DeleteService Service.ObjectMeta cur pre s2 t →
      classNameOf obj.ObjectMeta ∉ cur →
      r.DeleteService t obj = .error e →
      cleanupRemovedClasses r gw cur s1 = (some e, t) ∧
        Reconcile r req s = { err := some e, log := log, store := t }) := by
  have hstop : ∀ {α : Type} (delete : σ → α → Except Err σ) (metaOf : α → ObjectMeta)
      (pre rest : List α) (obj : α) (a t : σ),
      DeletedInTurn delete metaOf cur pre a t → classNameOf (metaOf obj) ∉ cur →
      delete t obj = .error e →
      deleteRemoved delete metaOf cur (pre ++ obj :: rest) a = (some e, t) := by
    intro α delete metaOf pre rest obj a t hpre hobj hdel
    rw [deleteRemoved_after delete metaOf cur pre (obj :: rest) a t hpre]
    simp [deleteRemoved, hobj, hdel]
  have hrec : ∀ t, cleanupRemovedClasses r gw cur s1 = (some e, t) →
      Reconcile r req s = { err := some e, log := log, store := t } := by
    intro t ht
    unfold Reconcile
    rw [hget]
    simp only
    rw [hcls]
    simp only
    rw [ht]
  constructor
  · intro pre rest obj t hlist hpre hobj hdel
    have hc : cleanupRemovedClasses r gw cur s1 = (some e, t) := by
      unfold cleanupRemovedClasses
      rw [hlist]
      simp only
      rw [hstop r.DeleteDeployment Deployment.ObjectMeta pre rest obj s1 t hpre hobj hdel]
    exact ⟨hc, hrec _ hc⟩
  · intro deployList s2 pre rest obj t hlist hdl hslist hpre hobj hdel
    have hdl1 : deleteRemoved r.DeleteDeployment Deployment.ObjectMeta cur deployList s1
        = (none, s2) := by
      have := deleteRemoved_after r.DeleteDeployment Deployment.ObjectMeta cur deployList []
        s1 s2 hdl
      rw [List.append_nil] at this
      rw [this]
      rfl
    have hc : cleanupRemovedClasses r gw cur s1 = (some e, t) := by
      unfold cleanupRemovedClasses
      rw [hlist]
      simp only
      rw [hdl1]
      simp only
      rw [hslist]
      simp only
      rw [hstop r.DeleteService Service.ObjectMeta pre rest obj s2 t hpre hobj hdel]
    exact ⟨hc, hrec _ hc⟩

theorem delete_error_aborts_witness :
    cleanupRemovedClasses (cachedListClient cachedStoreABC)
        { gatewayAB with Spec := { gatewayAB.Spec with Classes := [classB] } } ["b"] liveStoreAB
      = (some .notFound, liveStoreAB.withDeployments [exampleDeployment classB]) ∧
    (Reconcile (cachedListClient cachedStoreABC) exampleReq liveStoreAB).err = some .notFound :=
  match (delete_error_aborts (cachedListClient cachedStoreABC) exampleReq
      { gatewayAB with Spec := { gatewayAB.Spec with Classes := [classB] } }
      liveStoreAB liveStoreAB ["b"] (unchangedLog gatewayAB classB) .notFound rfl
      (by decide)).1
      [exampleDeployment classA, exampleDeployment classB] [] (exampleDeployment classC)
      (liveStoreAB.withDeployments [exampleDeployment classB]) rfl
      (DeletedInTurn.delete (exampleDeployment classA) [exampleDeployment classB] liveStoreAB
        (liveStoreAB.withDeployments [exampleDeployment classB]) _ (by decide) rfl
        (DeletedInTurn.pass (exampleDeployment classB) [] _ _ (by decide)
          (DeletedInTurn.done _)))
      (by decide) rfl with
  | ⟨hc, hr⟩ => ⟨hc, congrArg Outcome.err hr⟩

/-! ## Names across parents -/

/-- C10 as stated fails: the parents `a` and `a-b` have distinct names, and the class `b-c` of
the first and the class `c` of the second both give the child name `a-b-c`. -/
theorem child_names_collide :
    ("a" : String) ≠ "a-b" ∧ childName "a" "b-c" = childName "a-b" "c" := by
  decide

/-- C10, amended.  For two parents with distinct names of which neither is the other followed
by `-` and further text (in particular for parent names without `-`), no child name
`parentName-className` of one is a child name of the other, whatever the classes; and for any
two parents with distinct names, no object is selected for deletion by the passes of both,
since an object carries one part-of label. -/
theorem child_names_disjoint (p1 p2 : String) (hne : p1 ≠ p2)
    (h12 : ∀ t : String, p2 ≠ p1 ++ "-" ++ t) (h21 : ∀ t : String, p1 ≠ p2 ++ "-" ++ t) :
    (∀ c1 c2 : String, childName p1 c1 ≠ childName p2 c2) ∧
    (∀ (ns : String) (cur1 cur2 : List String) (m : ObjectMeta),
      isRemoved ns p1 cur1 m = true → isRemoved ns p2 cur2 m = false) := by
  constructor
  · intro c1 c2 h
    unfold childName at h
    have h1 := congrArg String.data h
    simp only [String.data_append, List.append_assoc] at h1
    rcases List.append_eq_append_iff.1 h1 with ⟨a, ha, hb⟩ | ⟨a, ha, hb⟩
    · cases a with
      | nil => exact hne (String.ext (by simpa using ha.symm))
      | cons x xs =>
        have hb1 : ("-" : String).data ++ c1.data = x :: (xs ++ (("-" : String).data ++ c2.data)) :=
          hb
        have hx : x = '-' := by
          have := congrArg List.head? hb1
          simpa using this.symm
        subst hx
        apply h12 ⟨xs⟩
        apply String.ext
        simp only [String.data_append, List.append_assoc]
        rw [ha]
        rfl
    · cases a with
      | nil => exact hne (String.ext (by simpa using ha))
      | cons x xs =>
        have hb1 : ("-" : String).data ++ c2.data = x :: (xs ++ (("-" : String).data ++ c1.data)) :=
          hb
        have hx : x = '-' := by
          have := congrArg List.head? hb1
          simpa using this.symm
        subst hx
        apply h21 ⟨xs⟩
        apply String.ext
        simp only [String.data_append, List.append_assoc]
        rw [ha]
        rfl
  · intro ns cur1 cur2 m h
    have h1 : isChildOf ns p1 m = true := by
      simp only [isRemoved, Bool.and_eq_true] at h; exact h.1
    have h2 : isChildOf ns p2 m = false := by
      rw [← Bool.not_eq_true, isChildOf_iff]
      rw [isChildOf_iff] at h1
      intro hc
      rw [h1.2] at hc
      exact hne (Option.some.inj hc.2)
    simp [isRemoved, h2]

theorem child_names_disjoint_witness :
    ("gw1" : String) ≠ "gw2" ∧ childName "gw1" "a" ≠ childName "gw2" "a" :=
  ⟨by decide,
    (child_names_disjoint "gw1" "gw2" (by decide)
      (fun t h => by
        have h1 := congrArg String.data h
        simp [String.data_append] at h1)
      (fun t h => by
        have h1 := congrArg String.data h
        simp [String.data_append] at h1)).1 "a" "a"⟩

end Gateway
